import Mathlib

set_option maxRecDepth 100000

/-!
Verification development for the Paracord client-side Signal-protocol core
(X3DH key agreement, Double Ratchet, session/prekey store, v1/v2 envelope
router).

Shallow embedding conventions:

* 32-byte binary values (keys, DH outputs, public keys) are modelled as
  natural numbers; all primitive operations reduce their results modulo the
  Curve25519 field prime `P25519`, so every produced value fits the
  32-byte value space.
* The external `@noble/curves` X25519 primitive is modelled as modular
  exponentiation over a fixed base (`xPubOf`, `dhShared`); the only property
  the repository code relies on is Diffie-Hellman commutativity, which the
  model provides (`dhShared_comm`).
* The external Ed25519 signature primitive is modelled as an ideal signature
  scheme (`edSign`, `edVerify`): verification succeeds exactly on the
  signer's own signature of the exact message.
* The external HKDF-SHA256 / HMAC-SHA256 primitives (`x3dhKDF`, `kdfRK`,
  `kdfCK` from `hkdf.ts`) are modelled as deterministic mixing functions;
  the code relies only on determinism and on the (root, chain) splitting
  structure, which the model preserves.
* AES-256-GCM is modelled as an ideal AEAD: a ciphertext is its byte body
  plus an authentication tag that binds key, nonce, associated data and
  body exactly; decryption succeeds iff the tag matches.
* `util.ts` (base64 / hex codecs) is not present under `src/`.
  Modelled from the spec: bytes↔base64 uses the standard alphabet and
  satisfies the round-trip law `fromB64(toB64(x)) == x`; here `toBase64`
  renders a 32-byte value as 43 base-64 digit characters and `fromBase64`
  inverts it (`fromBase64_toBase64`).
* Randomness (fresh X25519 key pairs, AES-GCM nonces) is passed explicitly
  as extra parameters, so all functions are deterministic.
-/

/-- Curve25519 field prime, used as the modulus of the 32-byte value space. -/
def P25519 : Nat := 2 ^ 255 - 19

/-- Model of `x25519.getPublicKey`: fixed-base modular exponentiation. -/
def xPubOf (priv : Nat) : Nat := 9 ^ priv % P25519

/-- Model of `x25519.getSharedSecret(priv, pub)`. -/
def dhShared (priv pub : Nat) : Nat := pub ^ priv % P25519

/-- An X25519 key pair, as in `types.ts`. -/
structure X25519KeyPair where
  publicKey : Nat
  privateKey : Nat
deriving DecidableEq, Repr

/-- Model of `generateX25519KeyPair` (`x3dh.ts`): the random secret is the
explicit seed argument. -/
def generateX25519KeyPair (seed : Nat) : X25519KeyPair :=
  { publicKey := xPubOf seed, privateKey := seed }

/-- Model of `ed25519.utils.toMontgomerySecret` (`ed25519PrivateToX25519`):
a deterministic secret-key conversion. -/
def ed25519PrivateToX25519 (edPriv : Nat) : Nat := (edPriv * 11 + 5) % P25519

/-- Model of `ed25519.getPublicKey`; Ed25519 points are identified with their
Montgomery u-coordinate, so `ed25519PublicToX25519` below is the identity. -/
def edPubOf (edPriv : Nat) : Nat := xPubOf (ed25519PrivateToX25519 edPriv)

/-- Model of `ed25519.utils.toMontgomery` (`ed25519PublicToX25519`). -/
def ed25519PublicToX25519 (edPub : Nat) : Nat := edPub

/-- Model of `ed25519.sign sk msg`: an ideal signature value binding the
signer's public key and the exact message. -/
def edSign (edPriv msg : Nat) : Nat := Nat.pair (edPubOf edPriv) msg

/-- Model of `ed25519.verify(sig, msg, pub)`: succeeds exactly on the ideal
signature of the exact message under the exact public key. -/
def edVerify (sig msg pub : Nat) : Bool := sig == Nat.pair pub msg

/-- Model of `x3dhKDF` (`hkdf.ts`): HKDF-SHA256 with zero salt over the
concatenated DH outputs, modelled as a deterministic fold. -/
def x3dhKDF (dhConcat : List Nat) : Nat :=
  dhConcat.foldl (fun acc x => (acc * 131 + x) % P25519) 17

/-- Model of `kdfRK` (`hkdf.ts`): root-key KDF returning (rootKey, chainKey). -/
def kdfRK (rk dhOutput : Nat) : Nat × Nat :=
  ((rk * 1009 + dhOutput * 2003 + 1) % P25519,
   (rk * 1009 + dhOutput * 2003 + 2) % P25519)

/-- Model of `kdfCK` (`hkdf.ts`): chain-key KDF returning
(chainKey, messageKey), i.e. HMAC with tags 0x02 / 0x01. -/
def kdfCK (ck : Nat) : Nat × Nat :=
  ((ck * 3001 + 2) % P25519, (ck * 3001 + 1) % P25519)

theorem P25519_pos : 0 < P25519 := by decide

/-- Diffie-Hellman commutativity of the X25519 model: the shared secret
computed from one side's secret and the other side's public key is symmetric. -/
theorem dhShared_comm (a b : Nat) :
    dhShared a (xPubOf b) = dhShared b (xPubOf a) := by
  unfold dhShared xPubOf
  rw [← Nat.pow_mod, ← Nat.pow_mod, ← Nat.pow_mul, ← Nat.pow_mul, Nat.mul_comm]

/-! ### Base64, hex and decimal codecs

`util.ts` is not part of the provided sources. Modelled from the spec
(§4.1 Codec utilities): standard-alphabet base64 with exact round-trip
semantics, lowercase hex, decimal rendering of counters. -/

/-- The standard base64 alphabet. -/
def b64Alphabet : List Char :=
  ("ABCDEFGHIJKLMNOPQRSTUVWXYZabcdefghijklmnopqrstuvwxyz0123456789+/").data

/-- The base64 digit character for a value `d < 64`. -/
def b64char (d : Nat) : Char := b64Alphabet.getD d 'A'

/-- The value of a base64 digit character. -/
def b64val (c : Char) : Nat := b64Alphabet.indexOf c

/-- Little-endian base-`base` digits of `n`, padded to exactly `k` digits. -/
def encodeDigits (base : Nat) : Nat → Nat → List Nat
  | 0, _ => []
  | k + 1, n => (n % base) :: encodeDigits base k (n / base)

/-- Bound on the 32-byte value space as represented in 43 base64 digits. -/
def B64CAP : Nat := 64 ^ 43

/-- Modelled from the spec: `toBase64` renders a 32-byte value as its 43
base64 digit characters (standard alphabet). -/
def toBase64 (n : Nat) : String := String.mk ((encodeDigits 64 43 n).map b64char)

/-- Modelled from the spec: `fromBase64` decodes a base64 string back to the
value it encodes. -/
def fromBase64 (s : String) : Nat :=
  s.data.foldr (fun c acc => b64val c + 64 * acc) 0

theorem b64val_b64char : ∀ d, d < 64 → b64val (b64char d) = d := by decide

theorem encodeDigits_decode :
    ∀ (k n : Nat), n < 64 ^ k →
      ((encodeDigits 64 k n).map b64char).foldr
        (fun c acc => b64val c + 64 * acc) 0 = n := by
  intro k
  induction k with
  | zero => intro n hn; simp at hn; simp [encodeDigits, hn]
  | succ k ih =>
    intro n hn
    have hdiv : n / 64 < 64 ^ k := by
      rw [Nat.div_lt_iff_lt_mul (by norm_num)]
      calc n < 64 ^ (k + 1) := hn
        _ = 64 ^ k * 64 := by ring
    simp only [encodeDigits, List.map_cons, List.foldr_cons, ih (n / 64) hdiv]
    rw [b64val_b64char (n % 64) (Nat.mod_lt _ (by norm_num))]
    exact Nat.mod_add_div n 64

/-- The base64 round-trip law from the spec: `fromB64(toB64(x)) == x`. -/
theorem fromBase64_toBase64 (n : Nat) (h : n < B64CAP) :
    fromBase64 (toBase64 n) = n := by
  unfold fromBase64 toBase64
  exact encodeDigits_decode 43 n h

theorem P25519_lt_B64CAP : P25519 < B64CAP := by decide

/-- Every character of `b64char d` output is in the base64 alphabet. -/
theorem b64char_mem (d : Nat) : b64char d ∈ b64Alphabet := by
  by_cases h : d < b64Alphabet.length
  · unfold b64char
    rw [List.getD_eq_getElem _ _ h]
    exact List.getElem_mem h
  · unfold b64char
    rw [List.getD_eq_default _ _ (Nat.le_of_not_lt h)]
    decide

/-- Every character of a `toBase64` output is in the base64 alphabet. -/
theorem toBase64_chars (n : Nat) :
    ∀ c ∈ (toBase64 n).data, c ∈ b64Alphabet := by
  intro c hc
  unfold toBase64 at hc
  simp only [String.data] at hc
  rcases List.mem_map.mp hc with ⟨d, _, rfl⟩
  exact b64char_mem d

/-- Decimal digit character. -/
def decChar (d : Nat) : Char := Char.ofNat (48 + d)

/-- Fuel-based little-endian decimal digit extraction (kernel-computable). -/
def decDigitsAux : Nat → Nat → List Nat
  | 0, _ => []
  | fuel + 1, n => if n = 0 then [] else (n % 10) :: decDigitsAux fuel (n / 10)

/-- Little-endian decimal digits of `n`. -/
def decDigits (n : Nat) : List Nat := decDigitsAux n n

theorem decDigitsAux_eq :
    ∀ (fuel n : Nat), n ≤ fuel → decDigitsAux fuel n = Nat.digits 10 n := by
  intro fuel
  induction fuel with
  | zero =>
    intro n h
    have hn : n = 0 := by omega
    subst hn
    simp [decDigitsAux]
  | succ fuel ih =>
    intro n h
    by_cases hn : n = 0
    · subst hn; simp [decDigitsAux]
    · rw [decDigitsAux, if_neg hn]
      have hdiv : n / 10 ≤ fuel := by
        have := Nat.div_lt_self (Nat.pos_of_ne_zero hn) (by norm_num : 1 < 10)
        omega
      rw [ih (n / 10) hdiv,
        Nat.digits_def' (by norm_num : 1 < 10) (Nat.pos_of_ne_zero hn)]

theorem decDigits_eq (n : Nat) : decDigits n = Nat.digits 10 n :=
  decDigitsAux_eq n n (Nat.le_refl n)

/-- Modelled decimal rendering of a counter, as `JSON.stringify` renders a
natural number. -/
def natStr (n : Nat) : String :=
  if n = 0 then "0" else String.mk (((decDigits n).reverse).map decChar)

theorem natStr_eq (n : Nat) :
    natStr n
      = if n = 0 then "0"
        else String.mk (((Nat.digits 10 n).reverse).map decChar) := by
  rw [natStr, decDigits_eq]

/-- Digit-character test (&#39;0&#39; through &#39;9&#39;). -/
def isDigitC (c : Char) : Bool := 47 < c.toNat && c.toNat < 58

theorem decChar_isDigit : ∀ d < 10, isDigitC (decChar d) = true := by decide

theorem decChar_inj : ∀ d < 10, ∀ e < 10, decChar d = decChar e → d = e := by
  decide

theorem map_decChar_inj :
    ∀ (l₁ l₂ : List Nat), (∀ d ∈ l₁, d < 10) → (∀ d ∈ l₂, d < 10) →
      l₁.map decChar = l₂.map decChar → l₁ = l₂ := by
  intro l₁
  induction l₁ with
  | nil => intro l₂ _ _ h; cases l₂ <;> simp_all
  | cons a t ih =>
    intro l₂ h₁ h₂ h
    cases l₂ with
    | nil => simp at h
    | cons b t₂ =>
      simp only [List.map_cons, List.cons.injEq] at h
      have ha : a = b :=
        decChar_inj a (h₁ a (by simp)) b (h₂ b (by simp)) h.1
      have ht : t = t₂ :=
        ih t₂ (fun d hd => h₁ d (by simp [hd])) (fun d hd => h₂ d (by simp [hd])) h.2
      rw [ha, ht]

theorem digits_all_lt (n : Nat) : ∀ d ∈ Nat.digits 10 n, d < 10 := by
  intro d hd
  exact Nat.digits_lt_base (by norm_num) hd

/-- Characters of a rendered counter are decimal digits. -/
theorem natStr_digits (n : Nat) : ∀ c ∈ (natStr n).data, isDigitC c = true := by
  intro c hc
  rw [natStr_eq] at hc
  by_cases h : n = 0
  · simp [h] at hc; rw [hc]; decide
  · simp only [h, if_false, String.data] at hc
    rcases List.mem_map.mp hc with ⟨d, hd, rfl⟩
    exact decChar_isDigit d (digits_all_lt n d (List.mem_reverse.mp hd))

theorem natStr_zero_aux (b : Nat) (hb : b ≠ 0)
    (hd : ((Nat.digits 10 b).reverse).map decChar = ['0']) : False := by
  cases hrev : (Nat.digits 10 b).reverse with
  | nil => rw [hrev] at hd; simp at hd
  | cons d0 rest =>
    rw [hrev] at hd
    cases rest with
    | cons d1 r2 => simp at hd
    | nil =>
      simp only [List.map_cons, List.map_nil, List.cons.injEq, and_true] at hd
      have hdig : Nat.digits 10 b = [d0] := by
        rw [← List.reverse_reverse (Nat.digits 10 b), hrev]
        rfl
      have hd0 : d0 < 10 := digits_all_lt b d0 (by rw [hdig]; simp)
      have hz : d0 = 0 := decChar_inj d0 hd0 0 (by norm_num) hd
      have hbval : b = Nat.ofDigits 10 (Nat.digits 10 b) :=
        (Nat.ofDigits_digits 10 b).symm
      rw [hdig, hz] at hbval
      simp [Nat.ofDigits] at hbval
      exact hb hbval

/-- Decimal rendering is injective. -/
theorem natStr_inj (a b : Nat) (h : natStr a = natStr b) : a = b := by
  rw [natStr_eq, natStr_eq] at h
  by_cases ha : a = 0 <;> by_cases hb : b = 0
  · rw [ha, hb]
  · exfalso
    simp only [ha, if_true, hb, if_false] at h
    apply natStr_zero_aux b hb
    have hh := congrArg String.data h
    simpa using hh.symm
  · exfalso
    simp only [ha, if_false, hb, if_true] at h
    apply natStr_zero_aux a ha
    have hh := congrArg String.data h
    simpa using hh
  · simp only [ha, if_false, hb, if_false] at h
    have hd := congrArg String.data h
    simp only [String.data] at hd
    have :=
      map_decChar_inj _ _
        (fun d hdm => digits_all_lt a d (List.mem_reverse.mp hdm))
        (fun d hdm => digits_all_lt b d (List.mem_reverse.mp hdm)) hd
    have hdig : Nat.digits 10 a = Nat.digits 10 b :=
      List.reverse_injective this
    calc a = Nat.ofDigits 10 (Nat.digits 10 a) := (Nat.ofDigits_digits 10 a).symm
      _ = Nat.ofDigits 10 (Nat.digits 10 b) := by rw [hdig]
      _ = b := Nat.ofDigits_digits 10 b

/-- Lowercase hex alphabet, for the model of `bytesToHex`. -/
def hexAlphabet : List Char := ("0123456789abcdef").data

/-- Modelled from the spec: `bytesToHex` of a 32-byte value, 64 lowercase hex
digit characters. -/
def bytesToHex (n : Nat) : String :=
  String.mk ((encodeDigits 16 64 n).map (fun d => hexAlphabet.getD d '0'))

/-! ### Ideal AEAD model of AES-256-GCM

A ciphertext is its byte body together with an authentication tag that binds
key, nonce, associated data and body exactly.  Decryption succeeds iff the
tag matches (ideal authenticity).  A single-byte mutation of the wire
ciphertext is modelled as changing one body byte or changing the tag. -/

/-- GCM authentication tag: binds key, nonce (IV), AAD string and body. -/
structure AeadCiphertext where
  body : List Nat
  tag : Nat × List Nat × String × List Nat
deriving DecidableEq, Repr

/-- Model of `crypto.subtle.encrypt` with AES-GCM. -/
def aeadEncrypt (key : Nat) (nonce : List Nat) (ad : String) (pt : String) :
    AeadCiphertext :=
  { body := pt.data.map Char.toNat, tag := (key, nonce, ad, pt.data.map Char.toNat) }

/-- Model of `crypto.subtle.decrypt` with AES-GCM: `none` models the rejected
promise (OperationError) on authentication failure. -/
def aeadDecrypt (key : Nat) (nonce : List Nat) (ad : String) (ct : AeadCiphertext) :
    Option String :=
  if ct.tag = (key, nonce, ad, ct.body) then
    some (String.mk (ct.body.map Char.ofNat))
  else none

theorem char_roundtrip (l : List Char) : l.map (Char.ofNat ∘ Char.toNat) = l := by
  induction l with
  | nil => rfl
  | cons c t ih => simp [ih, Char.ofNat_toNat]

theorem aeadDecrypt_encrypt (key : Nat) (nonce : List Nat) (ad : String)
    (pt : String) :
    aeadDecrypt key nonce ad (aeadEncrypt key nonce ad pt) = some pt := by
  simp [aeadDecrypt, aeadEncrypt, List.map_map, char_roundtrip]

/-! ### Message header and its canonical JSON serialization -/

/-- Signal message header (`types.ts` `MessageHeader`): `dh` is the sender's
ratchet public key in base64; `ik`, `ek`, `opk_id` appear only on X3DH
initial messages. -/
structure MessageHeader where
  dh : String
  pn : Nat
  n : Nat
  ik : Option String := none
  ek : Option String := none
  opk_id : Option Nat := none
deriving DecidableEq, Repr

/-- JSON fragment before the `dh` value. -/
def jsonPre : List Char := ['\x7b', '"', 'd', 'h', '"', ':', '"']

/-- JSON fragment between the `dh` value&#39;s closing quote and the `pn` value. -/
def jsonPn : List Char := [',', '"', 'p', 'n', '"', ':']

/-- JSON fragment between the `pn` value and the `n` value. -/
def jsonN : List Char := [',', '"', 'n', '"', ':']

/-- JSON fragment before an `ik` value. -/
def jsonIk : List Char := [',', '"', 'i', 'k', '"', ':', '"']

/-- JSON fragment before an `ek` value. -/
def jsonEk : List Char := [',', '"', 'e', 'k', '"', ':', '"']

/-- JSON fragment before an `opk_id` value. -/
def jsonOpk : List Char := [',', '"', 'o', 'p', 'k', '_', 'i', 'd', '"', ':']

/-- Serialization of an optional quoted string field, with its preceding
key fragment. -/
def jsonOptStr (pre : List Char) : Option String → List Char
  | none => []
  | some s => pre ++ s.data ++ ['"']

/-- Serialization of the optional `opk_id` field. -/
def jsonOptNat : Option Nat → List Char
  | none => []
  | some v => jsonOpk ++ (natStr v).data

/-- Model of `JSON.stringify(header)`: canonical JSON with keys in insertion
order `dh, pn, n, ik, ek, opk_id`, no whitespace, absent optional fields
omitted (as `JSON.stringify` omits `undefined` properties). -/
def headerJson (h : MessageHeader) : String :=
  String.mk (
    jsonPre ++ h.dh.data ++ '"' :: jsonPn ++ (natStr h.pn).data
      ++ jsonN ++ (natStr h.n).data
      ++ jsonOptStr jsonIk h.ik ++ jsonOptStr jsonEk h.ek ++ jsonOptNat h.opk_id
      ++ ['\x7d'])

/-- Base64-character test. -/
def isB64 (c : Char) : Bool := decide (c ∈ b64Alphabet)

/-- Wellformed ratchet-layer header: the `dh` field is base64 text and the
X3DH bootstrap fields are absent (as in every header built by
`ratchetEncrypt`). -/
def WFHeader (h : MessageHeader) : Prop :=
  (∀ c ∈ h.dh.data, isB64 c = true) ∧ h.ik = none ∧ h.ek = none ∧ h.opk_id = none

/-- Splitting a concatenation at the first character violating `p`. -/
theorem append_split {p : Char → Bool} :
    ∀ (a c : List Char) (x y : Char) (b d : List Char),
      (∀ z ∈ a, p z = true) → (∀ z ∈ c, p z = true) →
      p x = false → p y = false →
      a ++ x :: b = c ++ y :: d → a = c ∧ x = y ∧ b = d := by
  intro a
  induction a with
  | nil =>
    intro c x y b d _ hc hx hy h
    cases c with
    | nil => simpa using h
    | cons z t =>
      exfalso
      simp only [List.nil_append, List.cons_append, List.cons.injEq] at h
      rw [h.1] at hx
      rw [hc z (by simp)] at hx
      exact Bool.true_eq_false.mp hx
  | cons e a' ih =>
    intro c x y b d ha hc hx hy h
    cases c with
    | nil =>
      exfalso
      simp only [List.cons_append, List.nil_append, List.cons.injEq] at h
      rw [← h.1] at hy
      rw [ha e (by simp)] at hy
      exact Bool.true_eq_false.mp hy
    | cons z t =>
      simp only [List.cons_append, List.cons.injEq] at h
      have := ih t x y b d (fun w hw => ha w (by simp [hw]))
        (fun w hw => hc w (by simp [hw])) hx hy h.2
      exact ⟨by rw [h.1, this.1], this.2.1, this.2.2⟩

theorem isB64_quote : isB64 '"' = false := by decide

theorem isDigitC_comma : isDigitC ',' = false := by decide

theorem isDigitC_rbrace : isDigitC '\x7d' = false := by decide

theorem string_data_inj {s t : String} (h : s.data = t.data) : s = t := by
  cases s; cases t; exact congrArg String.mk h

theorem string_mk_inj {a b : List Char} (h : String.mk a = String.mk b) :
    a = b := by
  injection h

/-- The canonical JSON serialization is injective on wellformed headers:
this is the binding the AEAD associated data relies on. -/
theorem headerJson_inj (h₁ h₂ : MessageHeader)
    (w₁ : WFHeader h₁) (w₂ : WFHeader h₂)
    (he : headerJson h₁ = headerJson h₂) : h₁ = h₂ := by
  obtain ⟨b₁, i₁, e₁, o₁⟩ := w₁
  obtain ⟨b₂, i₂, e₂, o₂⟩ := w₂
  unfold headerJson at he
  rw [i₁, e₁, o₁, i₂, e₂, o₂] at he
  have hd := string_mk_inj he
  simp only [jsonOptStr, jsonOptNat, jsonPre, jsonPn, jsonN, List.append_nil,
    List.append_assoc, List.cons_append, List.nil_append, List.cons.injEq,
    true_and] at hd
  have s1 := append_split (p := isB64) h₁.dh.data h₂.dh.data '"' '"' _ _
    b₁ b₂ isB64_quote isB64_quote hd
  have hdh : h₁.dh = h₂.dh := string_data_inj s1.1
  have he3 := s1.2.2
  simp only [List.cons.injEq, true_and] at he3
  have s2 := append_split (p := isDigitC) (natStr h₁.pn).data (natStr h₂.pn).data
    ',' ',' _ _ (natStr_digits _) (natStr_digits _)
    isDigitC_comma isDigitC_comma he3
  have hpn : h₁.pn = h₂.pn := natStr_inj _ _ (string_data_inj s2.1)
  have he4 := s2.2.2
  simp only [List.cons.injEq, true_and] at he4
  have s3 := append_split (p := isDigitC) (natStr h₁.n).data (natStr h₂.n).data
    '\x7d' '\x7d' [] [] (natStr_digits _) (natStr_digits _)
    isDigitC_rbrace isDigitC_rbrace he4
  have hn : h₁.n = h₂.n := natStr_inj _ _ (string_data_inj s3.1)
  cases h₁; cases h₂
  simp_all

/-! ### X3DH engine (`x3dh.ts`) -/

/-- A peer's signed prekey as served in a bundle. -/
structure SignedPrekeyPub where
  id : Nat
  publicKey : Nat
  signature : Nat
deriving DecidableEq, Repr

/-- A peer's one-time prekey as served in a bundle. -/
structure OneTimePrekeyPub where
  id : Nat
  publicKey : Nat
deriving DecidableEq, Repr

/-- Prekey bundle fetched from the server for a peer (`types.ts`). -/
structure PrekeyBundle where
  identityKey : Nat
  signedPrekey : SignedPrekeyPub
  oneTimePrekey : Option OneTimePrekeyPub
deriving DecidableEq, Repr

/-- Result of `x3dhInitiate`. -/
structure X3DHResult where
  sharedSecret : Nat
  ephemeralPublic : Nat
  usedOPKId : Option Nat
deriving DecidableEq, Repr, Inhabited

/-- Error raised by `x3dhInitiate` on a bad signed-prekey signature. -/
inductive X3dhError where
  | badPrekeyBundle
deriving DecidableEq, Repr

/-- `x3dhInitiate` (`x3dh.ts`): verify the signed prekey, then derive the
shared secret from DH1..DH3 (and DH4 when a one-time prekey is present).
The ephemeral secret is the explicit `ekSeed` argument. -/
def x3dhInitiate (myIdentityPrivateEd25519 : Nat) (peerBundle : PrekeyBundle)
    (ekSeed : Nat) : Except X3dhError X3DHResult :=
  let spkPubBytes := peerBundle.signedPrekey.publicKey
  let sigBytes := peerBundle.signedPrekey.signature
  if edVerify sigBytes spkPubBytes peerBundle.identityKey then
    let myIKx := ed25519PrivateToX25519 myIdentityPrivateEd25519
    let peerIKx := ed25519PublicToX25519 peerBundle.identityKey
    let spkPub := spkPubBytes
    let ek := generateX25519KeyPair ekSeed
    let dh1 := dhShared myIKx spkPub
    let dh2 := dhShared ek.privateKey peerIKx
    let dh3 := dhShared ek.privateKey spkPub
    match peerBundle.oneTimePrekey with
    | some opk =>
      let dh4 := dhShared ek.privateKey opk.publicKey
      .ok { sharedSecret := x3dhKDF [dh1, dh2, dh3, dh4],
            ephemeralPublic := ek.publicKey, usedOPKId := some opk.id }
    | none =>
      .ok { sharedSecret := x3dhKDF [dh1, dh2, dh3],
            ephemeralPublic := ek.publicKey, usedOPKId := none }
  else .error .badPrekeyBundle

/-- `x3dhRespond` (`x3dh.ts`): mirror DH computations in the same order. -/
def x3dhRespond (myIdentityPrivateEd25519 mySpkPrivate : Nat)
    (myOpkPrivate : Option Nat) (peerIdentityEd25519 ephemeralPublic : Nat) :
    Nat :=
  let myIKx := ed25519PrivateToX25519 myIdentityPrivateEd25519
  let peerIKx := ed25519PublicToX25519 peerIdentityEd25519
  let dh1 := dhShared mySpkPrivate peerIKx
  let dh2 := dhShared myIKx ephemeralPublic
  let dh3 := dhShared mySpkPrivate ephemeralPublic
  match myOpkPrivate with
  | some opkSk => x3dhKDF [dh1, dh2, dh3, dhShared opkSk ephemeralPublic]
  | none => x3dhKDF [dh1, dh2, dh3]

/-- An honest responder's bundle: the signed prekey's X25519 public key is
signed with the responder's Ed25519 identity, public halves match the
private halves. -/
def honestBundle (bobSk spkPriv spkId : Nat) (opk : Option (Nat × Nat)) :
    PrekeyBundle :=
  { identityKey := edPubOf bobSk,
    signedPrekey :=
      { id := spkId, publicKey := xPubOf spkPriv,
        signature := edSign bobSk (xPubOf spkPriv) },
    oneTimePrekey := opk.map fun o => { id := o.1, publicKey := xPubOf o.2 } }

/-- C1: for every honest initiator/responder pair the responder recomputes
exactly the initiator's 32-byte shared secret, in both the 3-DH (no OPK)
and 4-DH (with OPK) cases. -/
theorem x3dh_shared_secret_agreement
    (aSk bSk spkPriv ekSeed spkId : Nat) (opk : Option (Nat × Nat))
    (r : X3DHResult)
    (h : x3dhInitiate aSk (honestBundle bSk spkPriv spkId opk) ekSeed = .ok r) :
    x3dhRespond bSk spkPriv (opk.map Prod.snd) (edPubOf aSk) r.ephemeralPublic
      = r.sharedSecret := by
  cases opk with
  | none =>
    simp only [x3dhInitiate, honestBundle, edVerify, edSign, beq_self_eq_true,
      if_true, Option.map_none', generateX25519KeyPair,
      ed25519PublicToX25519] at h
    have hr := (Except.ok.inj h).symm
    rw [hr]
    simp only [x3dhRespond, ed25519PublicToX25519, edPubOf, Option.map_none']
    rw [dhShared_comm spkPriv (ed25519PrivateToX25519 aSk),
      dhShared_comm (ed25519PrivateToX25519 bSk) ekSeed,
      dhShared_comm spkPriv ekSeed]
  | some o =>
    simp only [x3dhInitiate, honestBundle, edVerify, edSign, beq_self_eq_true,
      if_true, Option.map_some', generateX25519KeyPair,
      ed25519PublicToX25519] at h
    have hr := (Except.ok.inj h).symm
    rw [hr]
    simp only [x3dhRespond, ed25519PublicToX25519, edPubOf, Option.map_some']
    rw [dhShared_comm spkPriv (ed25519PrivateToX25519 aSk),
      dhShared_comm (ed25519PrivateToX25519 bSk) ekSeed,
      dhShared_comm spkPriv ekSeed, dhShared_comm o.2 ekSeed]

/-- Witness for C1 at concrete keys, covering the 4-DH case. -/
theorem x3dh_shared_secret_agreement_witness :
    x3dhInitiate 3 (honestBundle 4 5 100 (some (101, 6))) 7 =
      .ok ((x3dhInitiate 3 (honestBundle 4 5 100 (some (101, 6))) 7).toOption.getD
        default) ∧
    x3dhRespond 4 5 (some 6) (edPubOf 3)
      ((x3dhInitiate 3 (honestBundle 4 5 100 (some (101, 6))) 7).toOption.getD
        default).ephemeralPublic
      = ((x3dhInitiate 3 (honestBundle 4 5 100 (some (101, 6))) 7).toOption.getD
        default).sharedSecret := by
  constructor
  · rfl
  · exact x3dh_shared_secret_agreement 3 4 5 7 100 (some (101, 6)) _ (by rfl)

/-! ### Double Ratchet engine (`doubleRatchet.ts`)

The skipped-message-key `Map<string, Uint8Array>` keyed by
`"<dhPubHex>:<n>"` is modelled as an insertion-ordered association list
keyed by the pair `(dhPub, n)`; the hex rendering of the public key and the
decimal rendering of the counter are injective, so the string key and the
pair key identify the same entries.  Wire nonces and ciphertexts are
modelled at the byte level; their base64 transport encoding is a modelled
bijection and is elided at this interface. -/

/-- Errors thrown by the Double Ratchet engine. -/
inductive RatchetError where
  | sendingChainNotInitialized
  | tooManySkipped
  | receivingChainNotInitialized
  | decryptFailed
deriving DecidableEq, Repr

/-- `MAX_SKIP` (`types.ts`). -/
def MAX_SKIP : Nat := 256

/-- Skipped-message-key map entries: `((dhPub, counter), messageKey)`. -/
abbrev SkipMap := List ((Nat × Nat) × Nat)

/-- Double Ratchet state for a single session (`types.ts` `RatchetState`). -/
structure RatchetState where
  DHs : X25519KeyPair
  DHr : Option Nat
  RK : Nat
  CKs : Option Nat
  CKr : Option Nat
  Ns : Nat
  Nr : Nat
  PN : Nat
  MKSKIPPED : SkipMap
deriving DecidableEq, Repr

/-- `Map.get`. -/
def mapGet (m : SkipMap) (k : Nat × Nat) : Option Nat :=
  (m.find? (fun e => e.1 == k)).map (fun e => e.2)

/-- `Map.set`: replaces in place if the key is present, else appends
(JS Maps preserve insertion order). -/
def mapSet (m : SkipMap) (k : Nat × Nat) (v : Nat) : SkipMap :=
  if m.any (fun e => e.1 == k) then
    m.map (fun e => if e.1 == k then (k, v) else e)
  else m ++ [(k, v)]

/-- `Map.delete`: removes the entry, preserving the order of the rest. -/
def mapDelete (m : SkipMap) (k : Nat × Nat) : SkipMap :=
  m.filter (fun e => !(e.1 == k))

/-- `initializeInitiator` (`doubleRatchet.ts`): the fresh sending key pair's
secret is the explicit `dhsSeed` argument. -/
def initInitiator (sharedSecret peerSignedPrekey dhsSeed : Nat) : RatchetState :=
  let DHs := generateX25519KeyPair dhsSeed
  let r := kdfRK sharedSecret (dhShared DHs.privateKey peerSignedPrekey)
  { DHs := DHs, DHr := some peerSignedPrekey, RK := r.1, CKs := some r.2,
    CKr := none, Ns := 0, Nr := 0, PN := 0, MKSKIPPED := [] }

/-- `initializeResponder` (`doubleRatchet.ts`). -/
def initResponder (sharedSecret : Nat) (mySignedPrekeyPair : X25519KeyPair) :
    RatchetState :=
  { DHs := mySignedPrekeyPair, DHr := none, RK := sharedSecret, CKs := none,
    CKr := none, Ns := 0, Nr := 0, PN := 0, MKSKIPPED := [] }

/-- Result of `ratchetEncrypt`. -/
structure EncryptResult where
  header : MessageHeader
  nonce : List Nat
  ciphertext : AeadCiphertext
  state : RatchetState
deriving DecidableEq, Repr

/-- `ratchetEncrypt` (`doubleRatchet.ts`): the 12-byte random nonce is the
explicit `nonce` argument; the canonical JSON of the header is bound as the
AEAD associated data. -/
def ratchetEncrypt (state : RatchetState) (plaintext : String)
    (nonce : List Nat) : Except RatchetError EncryptResult :=
  match state.CKs with
  | none => .error .sendingChainNotInitialized
  | some cks =>
    let r := kdfCK cks
    let newState := { state with CKs := some r.1, Ns := state.Ns + 1 }
    let header : MessageHeader :=
      { dh := toBase64 state.DHs.publicKey, pn := state.PN, n := state.Ns }
    let ciphertext := aeadEncrypt r.2 nonce (headerJson header) plaintext
    .ok { header := header, nonce := nonce, ciphertext := ciphertext,
          state := newState }

/-- Iterations of the `while (nr < until)` loop of `skipMessageKeys`,
deriving and caching one message key per step; the fuel is the remaining
iteration count. -/
def skipLoopFuel : Nat → Nat → Nat → SkipMap → Nat → Nat × Nat × SkipMap
  | 0, ckr, _, m, nr => (ckr, nr, m)
  | fuel + 1, ckr, dhrPub, m, nr =>
    skipLoopFuel fuel (kdfCK ckr).1 dhrPub (mapSet m (dhrPub, nr) (kdfCK ckr).2)
      (nr + 1)

/-- The `while (nr < until)` loop of `skipMessageKeys`: runs
`untilN - nr` iterations (zero when the counter has already passed). -/
def skipLoop (ckr dhrPub : Nat) (m : SkipMap) (nr untilN : Nat) :
    Nat × Nat × SkipMap :=
  skipLoopFuel (untilN - nr) ckr dhrPub m nr

/-- `skipMessageKeys` (`doubleRatchet.ts`): returns the state unchanged when
either chain component is missing; errors when the gap beyond `Nr` exceeds
`MAX_SKIP` (the JS test `until - state.Nr > MAX_SKIP` over integers). -/
def skipMessageKeys (state : RatchetState) (untilN : Nat) :
    Except RatchetError RatchetState :=
  match state.CKr, state.DHr with
  | some ckr, some dhr =>
    if state.Nr + MAX_SKIP < untilN then .error .tooManySkipped
    else
      let r := skipLoop ckr dhr state.MKSKIPPED state.Nr untilN
      .ok { state with CKr := some r.1, Nr := r.2.1, MKSKIPPED := r.2.2 }
  | _, _ => .ok state

/-- The DH ratchet step of `ratchetDecrypt` (`doubleRatchet.ts` step 2):
skip the remainder of the previous receiving chain, adopt the header's DH
key, derive the new receiving chain, generate a fresh sending key pair
(secret `freshSeed`) and derive the new sending chain. -/
def dhRatchetStep (state : RatchetState) (headerDhPub pn freshSeed : Nat) :
    Except RatchetError RatchetState :=
  match (if state.CKr ≠ none ∧ state.DHr ≠ none
         then skipMessageKeys state pn else Except.ok state) with
  | .error e => .error e
  | .ok s0 =>
    let s2 := { s0 with PN := s0.Ns, Ns := 0, Nr := 0, DHr := some headerDhPub }
    let r1 := kdfRK s2.RK (dhShared s2.DHs.privateKey headerDhPub)
    let s3 := { s2 with RK := r1.1, CKr := some r1.2 }
    let dhsNew := generateX25519KeyPair freshSeed
    let r2 := kdfRK s3.RK (dhShared dhsNew.privateKey headerDhPub)
    .ok { s3 with DHs := dhsNew, RK := r2.1, CKs := some r2.2 }

/-- `ratchetDecrypt` (`doubleRatchet.ts`): skipped-key lookup, optional DH
ratchet step (with the fresh sending secret given by `freshSeed`), skipping
ahead in the receiving chain, then AEAD decryption bound to the canonical
JSON header. -/
def ratchetDecrypt (state : RatchetState) (header : MessageHeader)
    (nonce : List Nat) (ciphertext : AeadCiphertext) (freshSeed : Nat) :
    Except RatchetError (String × RatchetState) :=
  let headerDhPub := fromBase64 header.dh
  let skipKey := (headerDhPub, header.n)
  match mapGet state.MKSKIPPED skipKey with
  | some skippedMk =>
    let newSkipped := mapDelete state.MKSKIPPED skipKey
    match aeadDecrypt skippedMk nonce (headerJson header) ciphertext with
    | some plaintext => .ok (plaintext, { state with MKSKIPPED := newSkipped })
    | none => .error .decryptFailed
  | none =>
    match (if state.DHr = some headerDhPub then Except.ok state
           else dhRatchetStep state headerDhPub header.pn freshSeed) with
    | .error e => .error e
    | .ok s1 =>
      match skipMessageKeys s1 header.n with
      | .error e => .error e
      | .ok s4 =>
        match s4.CKr with
        | none => .error .receivingChainNotInitialized
        | some ckr =>
          let r := kdfCK ckr
          let s5 := { s4 with CKr := some r.1, Nr := s4.Nr + 1 }
          match aeadDecrypt r.2 nonce (headerJson header) ciphertext with
          | some plaintext => .ok (plaintext, s5)
          | none => .error .decryptFailed

/-! ### C2 development: out-of-order delivery over a single sending chain -/

/-- The receiving/sending chain after `k` symmetric-ratchet steps. -/
def ckIter (ck : Nat) : Nat → Nat
  | 0 => ck
  | k + 1 => (kdfCK (ckIter ck k)).1

/-- The message key of chain step `k`. -/
def mkAt (ck k : Nat) : Nat := (kdfCK (ckIter ck k)).2

theorem kdfCK_ckIter (ck k : Nat) :
    kdfCK (ckIter ck k) = (ckIter ck (k + 1), mkAt ck k) := rfl

theorem xPubOf_lt (a : Nat) : xPubOf a < P25519 :=
  Nat.mod_lt _ P25519_pos

theorem xPubOf_lt_B64CAP (a : Nat) : xPubOf a < B64CAP :=
  Nat.lt_trans (xPubOf_lt a) P25519_lt_B64CAP

/-- Key-presence test of the skipped-key map. -/
def mapHasKey (m : SkipMap) (k : Nat × Nat) : Bool :=
  m.any (fun e => e.1 == k)

theorem mapSet_absent (m : SkipMap) (k : Nat × Nat) (v : Nat)
    (h : mapHasKey m k = false) : mapSet m k v = m ++ [(k, v)] := by
  unfold mapSet
  rw [show (m.any fun e => e.1 == k) = false from h]
  simp

theorem mapHasKey_append (m m' : SkipMap) (k : Nat × Nat) :
    mapHasKey (m ++ m') k = (mapHasKey m k || mapHasKey m' k) :=
  List.any_append

/-- Characterization of the `skipMessageKeys` while loop starting at step
`nr` of the chain: it advances the chain to `nr + k` and appends the `k`
skipped message keys in ascending counter order. -/
theorem skipLoop_spec (ck0 dhr : Nat) :
    ∀ (k nr : Nat) (m : SkipMap),
      (∀ j, nr ≤ j → j < nr + k → mapHasKey m (dhr, j) = false) →
      skipLoop (ckIter ck0 nr) dhr m nr (nr + k)
        = (ckIter ck0 (nr + k), nr + k,
            m ++ (List.range' nr k).map (fun j => ((dhr, j), mkAt ck0 j))) := by
  intro k
  induction k with
  | zero =>
    intro nr m _
    unfold skipLoop
    rw [show nr + 0 - nr = 0 from by omega]
    simp [skipLoopFuel]
  | succ k ih =>
    intro nr m habs
    unfold skipLoop
    rw [show nr + (k + 1) - nr = k + 1 from by omega]
    rw [skipLoopFuel, kdfCK_ckIter]
    have habs0 : mapHasKey m (dhr, nr) = false :=
      habs nr (le_refl nr) (by omega)
    rw [mapSet_absent m (dhr, nr) (mkAt ck0 nr) habs0]
    have hrec := ih (nr + 1) (m ++ [((dhr, nr), mkAt ck0 nr)]) (by
      intro j hj1 hj2
      rw [mapHasKey_append]
      have h1 : mapHasKey m (dhr, j) = false := habs j (by omega) (by omega)
      have h2 : mapHasKey [((dhr, nr), mkAt ck0 nr)] (dhr, j) = false := by
        simp only [mapHasKey, List.any_cons, List.any_nil, Bool.or_false]
        have hne : ¬ ((dhr, nr) = (dhr, j)) := by
          intro hc
          have := congrArg Prod.snd hc
          omega
        simpa using hne
      rw [h1, h2]
      rfl)
    unfold skipLoop at hrec
    rw [show nr + 1 + k - (nr + 1) = k from by omega] at hrec
    rw [show nr + 1 + k = nr + (k + 1) from by omega] at hrec
    rw [hrec]
    simp only [List.append_assoc, List.singleton_append]
    rfl

theorem maxD_shift : ∀ (l : List Nat) (a : Nat), l.foldr max a = max (l.foldr max 0) a := by
  intro l
  induction l with
  | nil => intro a; simp
  | cons x t ih =>
    intro a
    simp only [List.foldr_cons, ih a]
    exact (Nat.max_assoc x (t.foldr max 0) a).symm

/-- Largest processed counter (`0` for the empty list). -/
def maxD (l : List Nat) : Nat := l.foldr max 0

theorem maxD_append_single (l : List Nat) (c : Nat) :
    maxD (l ++ [c]) = max (maxD l) c := by
  unfold maxD
  rw [List.foldr_append]
  simp only [List.foldr_cons, List.foldr_nil]
  rw [maxD_shift l (max c 0)]
  simp [Nat.max_comm]

theorem mem_le_maxD (l : List Nat) (c : Nat) (h : c ∈ l) : c ≤ maxD l := by
  induction l with
  | nil => simp at h
  | cons x t ih =>
    rcases List.mem_cons.mp h with h1 | h2
    · rw [h1]; exact Nat.le_max_left _ _
    · exact Nat.le_trans (ih h2) (Nat.le_max_right _ _)

/-- Parameters of the C2 scenario: a pair of sessions built from the same
X3DH shared secret `ss` (Alice via `initInitiator`, Bob via
`initResponder` on his signed-prekey pair), the plaintexts and nonces of
Alice's messages, and Bob's stream of fresh ratchet seeds. -/
structure C2Ctx where
  ss : Nat
  spkPriv : Nat
  aSeed : Nat
  pts : List String
  nonces : List (List Nat)
  fresh : Nat → Nat

/-- Alice's ratchet public key for the single sending chain. -/
def C2Ctx.apub (ctx : C2Ctx) : Nat := xPubOf ctx.aSeed

/-- The shared sending/receiving chain key of the first chain. -/
def C2Ctx.ck0 (ctx : C2Ctx) : Nat :=
  (kdfRK ctx.ss (dhShared ctx.aSeed (xPubOf ctx.spkPriv))).2

/-- Header of Alice's `c`-th message. -/
def C2Ctx.hdr (ctx : C2Ctx) (c : Nat) : MessageHeader :=
  { dh := toBase64 ctx.apub, pn := 0, n := c }

/-- Alice's `c`-th wire message (header, nonce, ciphertext). -/
def C2Ctx.msg (ctx : C2Ctx) (c : Nat) :
    MessageHeader × List Nat × AeadCiphertext :=
  (ctx.hdr c, ctx.nonces.getD c [],
    aeadEncrypt (mkAt ctx.ck0 c) (ctx.nonces.getD c [])
      (headerJson (ctx.hdr c)) (ctx.pts.getD c ""))

/-- Alice's initial ratchet state. -/
def C2Ctx.alice0 (ctx : C2Ctx) : RatchetState :=
  initInitiator ctx.ss (xPubOf ctx.spkPriv) ctx.aSeed

/-- Bob's initial ratchet state. -/
def C2Ctx.bob0 (ctx : C2Ctx) : RatchetState :=
  initResponder ctx.ss (generateX25519KeyPair ctx.spkPriv)

/-- Alice's state after `i` sends on the first chain. -/
def C2Ctx.aliceAt (ctx : C2Ctx) (i : Nat) : RatchetState :=
  { ctx.alice0 with CKs := some (ckIter ctx.ck0 i), Ns := i }

/-- The skipped-key map holding exactly the not-yet-delivered counters
below `m`, in ascending order. -/
def C2Ctx.gapMap (ctx : C2Ctx) (done : List Nat) (m : Nat) : SkipMap :=
  ((List.range m).filter (fun j => decide (j ∉ done))).map
    (fun j => ((ctx.apub, j), mkAt ctx.ck0 j))

/-- Bob's state invariant after processing the nonempty set `done` of
Alice's counters. -/
def C2Ctx.inv (ctx : C2Ctx) (done : List Nat) (b : RatchetState) : Prop :=
  b.DHr = some ctx.apub ∧
  b.CKr = some (ckIter ctx.ck0 (maxD done + 1)) ∧
  b.Nr = maxD done + 1 ∧
  b.MKSKIPPED = ctx.gapMap done (maxD done + 1)

/-- Sequential sender: `ratchetEncrypt` folded over plaintext/nonce pairs. -/
def sendAll (s : RatchetState) :
    List (String × List Nat) → Except RatchetError (List EncryptResult × RatchetState)
  | [] => .ok ([], s)
  | (pt, nonce) :: rest => do
    let r ← ratchetEncrypt s pt nonce
    let (rs, s') ← sendAll r.state rest
    .ok (r :: rs, s')

/-- Sequential receiver: `ratchetDecrypt` folded over delivered messages,
consuming fresh seeds by position. -/
def processAll (fresh : Nat → Nat) :
    RatchetState → Nat → List (MessageHeader × List Nat × AeadCiphertext) →
      Except RatchetError (List String × RatchetState)
  | b, _, [] => .ok ([], b)
  | b, i, msg :: rest => do
    let r ← ratchetDecrypt b msg.1 msg.2.1 msg.2.2 (fresh i)
    let (ps, b') ← processAll fresh r.2 (i + 1) rest
    .ok (r.1 :: ps, b')

/-- Counter-gap discipline of a delivery order: each delivered counter
exceeds the receiver's chain position by at most `MAX_SKIP`. -/
def gapsOK : Nat → List Nat → Bool
  | _, [] => true
  | nr, c :: rest => decide (c ≤ nr + MAX_SKIP) && gapsOK (max nr (c + 1)) rest

theorem gapMap_find (ctx : C2Ctx) (done : List Nat) (m j : Nat) :
    mapGet (ctx.gapMap done m) (ctx.apub, j)
      = if j < m ∧ j ∉ done then some (mkAt ctx.ck0 j) else none := by
  unfold C2Ctx.gapMap mapGet
  generalize hl : (List.range m).filter (fun j => decide (j ∉ done)) = l
  have hmem : j ∈ l ↔ (j < m ∧ j ∉ done) := by
    rw [← hl]
    simp [List.mem_filter, List.mem_range]
  clear hl
  induction l with
  | nil =>
    simp only [List.not_mem_nil, false_iff] at hmem
    rw [List.map_nil, List.find?_nil, Option.map_none', if_neg hmem]
  | cons x t ih =>
    simp only [List.map_cons, List.find?_cons]
    by_cases hx : x = j
    · subst hx
      have : (((ctx.apub, x), mkAt ctx.ck0 x).1 == ((ctx.apub, x) : Nat × Nat)) = true := by
        simp
      rw [this]
      simp only [Option.map_some']
      rw [if_pos (hmem.mp (by simp))]
    · have : (((ctx.apub, x), mkAt ctx.ck0 x).1 == ((ctx.apub, j) : Nat × Nat)) = false := by
        simp [hx]
      rw [this]
      exact ih (by
        constructor
        · intro hj; exact hmem.mp (by simp [hj])
        · intro hj
          rcases List.mem_cons.mp (hmem.mpr hj) with h1 | h2
          · exact absurd h1.symm hx
          · exact h2)

theorem gapMap_hasKey (ctx : C2Ctx) (done : List Nat) (m j : Nat) (hj : m ≤ j) :
    mapHasKey (ctx.gapMap done m) (ctx.apub, j) = false := by
  unfold C2Ctx.gapMap mapHasKey
  rw [List.any_eq_false]
  intro e he
  rcases List.mem_map.mp he with ⟨i, hi, rfl⟩
  have : i < m := List.mem_range.mp (List.mem_filter.mp hi).1
  simp only [beq_iff_eq]
  intro hc
  have := congrArg Prod.snd hc
  simp at this
  omega

theorem except_bind_ok {α β ε : Type} (x : α) (f : α → Except ε β) :
    (Except.ok x >>= f) = f x := rfl

theorem encrypt_at (ctx : C2Ctx) (i : Nat) (pt : String) (nonce : List Nat) :
    ratchetEncrypt (ctx.aliceAt i) pt nonce
      = .ok { header := ctx.hdr i, nonce := nonce,
              ciphertext := aeadEncrypt (mkAt ctx.ck0 i) nonce
                (headerJson (ctx.hdr i)) pt,
              state := ctx.aliceAt (i + 1) } := by
  simp only [ratchetEncrypt, C2Ctx.aliceAt, C2Ctx.alice0, initInitiator,
    generateX25519KeyPair, C2Ctx.hdr, C2Ctx.apub, C2Ctx.ck0, kdfCK_ckIter]

/-- Closed form of the messages `sendAll` produces from `aliceAt i`. -/
def C2Ctx.sentList (ctx : C2Ctx) : Nat → List (String × List Nat) → List EncryptResult
  | _, [] => []
  | i, (pt, nonce) :: rest =>
    { header := ctx.hdr i, nonce := nonce,
      ciphertext := aeadEncrypt (mkAt ctx.ck0 i) nonce (headerJson (ctx.hdr i)) pt,
      state := ctx.aliceAt (i + 1) } :: ctx.sentList (i + 1) rest

theorem sendAll_spec (ctx : C2Ctx) :
    ∀ (pn : List (String × List Nat)) (i : Nat),
      sendAll (ctx.aliceAt i) pn
        = .ok (ctx.sentList i pn, ctx.aliceAt (i + pn.length)) := by
  intro pn
  induction pn with
  | nil => intro i; simp [sendAll, C2Ctx.sentList]
  | cons h rest ih =>
    intro i
    obtain ⟨pt, nonce⟩ := h
    rw [sendAll, encrypt_at, except_bind_ok]
    dsimp only
    rw [ih (i + 1), except_bind_ok]
    dsimp only
    simp only [C2Ctx.sentList, List.length_cons]
    rw [show i + 1 + rest.length = i + (rest.length + 1) from by omega]

theorem sentList_getD (ctx : C2Ctx) (d : EncryptResult) :
    ∀ (pn : List (String × List Nat)) (i c : Nat), c < pn.length →
      (ctx.sentList i pn).getD c d
        = { header := ctx.hdr (i + c),
            nonce := (pn.getD c ("", [])).2,
            ciphertext := aeadEncrypt (mkAt ctx.ck0 (i + c)) ((pn.getD c ("", [])).2)
              (headerJson (ctx.hdr (i + c))) ((pn.getD c ("", [])).1),
            state := ctx.aliceAt (i + c + 1) } := by
  intro pn
  induction pn with
  | nil => intro i c h; simp at h
  | cons hd rest ih =>
    intro i c hc
    obtain ⟨pt, nonce⟩ := hd
    cases c with
    | zero => simp [C2Ctx.sentList, List.getD]
    | succ c =>
      simp only [C2Ctx.sentList, List.getD_cons_succ]
      rw [ih (i + 1) c (by simpa using hc)]
      rw [show i + 1 + c = i + (c + 1) from by omega]

theorem gapMap_extend (ctx : C2Ctx) (done : List Nat) (m c : Nat)
    (hm : ∀ j ∈ done, j < m) (hc : m ≤ c) :
    ctx.gapMap done m
      ++ (List.range' m (c - m)).map (fun j => ((ctx.apub, j), mkAt ctx.ck0 j))
      = ctx.gapMap (done ++ [c]) (c + 1) := by
  unfold C2Ctx.gapMap
  rw [← List.map_append]
  congr 1
  have hsplit : List.range (c + 1) = List.range m ++ List.range' m (c + 1 - m) := by
    rw [List.range_eq_range']
    have happ := List.range'_append_1 0 m (c + 1 - m)
    rw [Nat.zero_add, show c + 1 - m + m = c + 1 from by omega] at happ
    rw [← happ, List.range_eq_range']
  rw [hsplit, List.filter_append]
  congr 1
  · apply List.filter_congr
    intro j hj
    have hjm : j < m := List.mem_range.mp hj
    have hiff : (j ∉ done ++ [c]) ↔ (j ∉ done) := by
      simp only [List.mem_append, List.mem_singleton]
      constructor
      · intro h hd; exact h (Or.inl hd)
      · rintro h (hd | hd)
        · exact h hd
        · omega
    exact decide_eq_decide.mpr hiff.symm
  · have hsplit2 : List.range' m (c + 1 - m) = List.range' m (c - m) ++ [c] := by
      rw [show c + 1 - m = (c - m) + 1 from by omega, List.range'_1_concat]
      congr 1
      simp only [List.cons.injEq, and_true]
      omega
    rw [hsplit2, List.filter_append]
    have h1 : (List.range' m (c - m)).filter (fun j => decide (j ∉ done ++ [c]))
        = List.range' m (c - m) := by
      apply List.filter_eq_self.mpr
      intro j hj
      have hr := List.mem_range'_1.mp hj
      simp only [decide_eq_true_eq, List.mem_append, List.mem_singleton]
      rintro (hd | hd)
      · exact absurd (hm j hd) (by omega)
      · omega
    have h2 : ([c] : List Nat).filter (fun j => decide (j ∉ done ++ [c])) = [] := by
      simp
    rw [h1, h2, List.append_nil]

theorem gapMap_delete (ctx : C2Ctx) (done : List Nat) (m c : Nat) :
    mapDelete (ctx.gapMap done m) (ctx.apub, c) = ctx.gapMap (done ++ [c]) m := by
  unfold C2Ctx.gapMap mapDelete
  rw [List.filter_map]
  congr 1
  rw [List.filter_filter]
  apply List.filter_congr
  intro j _
  have hbeq : (((ctx.apub, j) : Nat × Nat) == (ctx.apub, c)) = decide (j = c) := by
    by_cases h : j = c <;> simp [h]
  simp only [Function.comp_apply, hbeq]
  rw [← decide_not, ← Bool.decide_and, decide_eq_decide]
  simp only [List.mem_append, List.mem_singleton, not_or]
  constructor
  · rintro ⟨h1, h2⟩; exact ⟨h2, h1⟩
  · rintro ⟨h1, h2⟩; exact ⟨h2, h1⟩

theorem apub_lt_B64CAP (ctx : C2Ctx) : ctx.apub < B64CAP :=
  xPubOf_lt_B64CAP ctx.aSeed

theorem apub_roundtrip (ctx : C2Ctx) :
    fromBase64 (toBase64 ctx.apub) = ctx.apub :=
  fromBase64_toBase64 _ (apub_lt_B64CAP ctx)

theorem step_skipped (ctx : C2Ctx) (done : List Nat) (b : RatchetState)
    (c f : Nat) (hinv : ctx.inv done b) (hlt : c < maxD done + 1)
    (hnotin : c ∉ done) :
    ratchetDecrypt b (ctx.hdr c) (ctx.nonces.getD c []) (ctx.msg c).2.2 f
      = .ok (ctx.pts.getD c "",
          { b with MKSKIPPED := ctx.gapMap (done ++ [c]) (maxD done + 1) }) := by
  obtain ⟨h1, h2, h3, h4⟩ := hinv
  simp only [ratchetDecrypt, C2Ctx.hdr, C2Ctx.msg, apub_roundtrip, h4]
  rw [gapMap_find, if_pos ⟨hlt, hnotin⟩]
  dsimp only
  rw [aeadDecrypt_encrypt, gapMap_delete]

theorem step_new (ctx : C2Ctx) (done : List Nat) (b : RatchetState) (c f : Nat)
    (hinv : ctx.inv done b) (hge : maxD done + 1 ≤ c)
    (hle : c ≤ maxD done + 1 + MAX_SKIP) :
    ratchetDecrypt b (ctx.hdr c) (ctx.nonces.getD c []) (ctx.msg c).2.2 f
      = .ok (ctx.pts.getD c "",
          { b with CKr := some (ckIter ctx.ck0 (c + 1)), Nr := c + 1,
                   MKSKIPPED := ctx.gapMap (done ++ [c]) (c + 1) }) := by
  obtain ⟨h1, h2, h3, h4⟩ := hinv
  simp only [ratchetDecrypt, C2Ctx.hdr, C2Ctx.msg, apub_roundtrip, h4]
  rw [gapMap_find, if_neg (by rintro ⟨hc, _⟩; omega)]
  rw [h1, if_pos rfl]
  dsimp only
  simp only [skipMessageKeys, h1, h2, h3]
  rw [if_neg (by omega)]
  have hsl := skipLoop_spec ctx.ck0 ctx.apub (c - (maxD done + 1))
    (maxD done + 1) (ctx.gapMap done (maxD done + 1))
    (fun j hj1 _hj2 => gapMap_hasKey ctx done (maxD done + 1) j hj1)
  rw [show maxD done + 1 + (c - (maxD done + 1)) = c from by omega] at hsl
  rw [h4, hsl]
  dsimp only
  rw [kdfCK_ckIter]
  dsimp only
  rw [aeadDecrypt_encrypt]
  rw [gapMap_extend ctx done (maxD done + 1) c
    (fun j hj => Nat.lt_succ_of_le (mem_le_maxD done j hj)) (by omega)]

theorem ck0_eq (ctx : C2Ctx) :
    (kdfRK ctx.ss (dhShared ctx.spkPriv ctx.apub)).2 = ctx.ck0 := by
  unfold C2Ctx.ck0 C2Ctx.apub
  rw [dhShared_comm]

theorem gapMap_first (ctx : C2Ctx) (c : Nat) :
    (List.range' 0 c).map (fun j => ((ctx.apub, j), mkAt ctx.ck0 j))
      = ctx.gapMap [c] (c + 1) := by
  unfold C2Ctx.gapMap
  congr 1
  rw [List.range_succ, List.filter_append]
  have h1 : (List.range c).filter (fun j => decide (j ∉ [c])) = List.range c := by
    apply List.filter_eq_self.mpr
    intro j hj
    have := List.mem_range.mp hj
    simp only [decide_eq_true_eq, List.mem_singleton]
    omega
  have h2 : ([c] : List Nat).filter (fun j => decide (j ∉ [c])) = [] := by simp
  rw [h1, h2, List.append_nil, List.range_eq_range']

/-- Bob's state after his very first `ratchetDecrypt` (of Alice's message
with counter `c`), which performs the DH ratchet step with fresh seed `f`. -/
def C2Ctx.afterFirst (ctx : C2Ctx) (c f : Nat) : RatchetState :=
  { DHs := generateX25519KeyPair f,
    DHr := some ctx.apub,
    RK := (kdfRK (kdfRK ctx.ss (dhShared ctx.spkPriv ctx.apub)).1
      (dhShared f ctx.apub)).1,
    CKs := some ((kdfRK (kdfRK ctx.ss (dhShared ctx.spkPriv ctx.apub)).1
      (dhShared f ctx.apub)).2),
    CKr := some (ckIter ctx.ck0 (c + 1)),
    Ns := 0, Nr := c + 1, PN := 0,
    MKSKIPPED := ctx.gapMap [c] (c + 1) }

theorem step_first (ctx : C2Ctx) (c f : Nat) (hle : c ≤ MAX_SKIP) :
    ratchetDecrypt ctx.bob0 (ctx.hdr c) (ctx.nonces.getD c []) (ctx.msg c).2.2 f
      = .ok (ctx.pts.getD c "", ctx.afterFirst c f) := by
  simp only [ratchetDecrypt, C2Ctx.hdr, C2Ctx.msg, apub_roundtrip, C2Ctx.bob0,
    initResponder, generateX25519KeyPair, mapGet, List.find?_nil,
    Option.map_none']
  rw [if_neg (by simp)]
  simp only [dhRatchetStep]
  rw [if_neg (by simp)]
  dsimp only
  simp only [skipMessageKeys]
  rw [if_neg (by simp only [MAX_SKIP] at hle ⊢; omega)]
  have hsl := skipLoop_spec ctx.ck0 ctx.apub c 0 []
    (fun j _ _ => rfl)
  rw [Nat.zero_add] at hsl
  have hsl2 : skipLoop ctx.ck0 ctx.apub [] 0 c
      = (ckIter ctx.ck0 c, c,
          [] ++ (List.range' 0 c).map (fun j => ((ctx.apub, j), mkAt ctx.ck0 j))) :=
    hsl
  rw [ck0_eq, hsl2]
  dsimp only
  rw [kdfCK_ckIter]
  dsimp only
  rw [aeadDecrypt_encrypt]
  rw [List.nil_append, gapMap_first]
  rfl

theorem maxD_single (c : Nat) : maxD [c] = c := by
  simp [maxD]

theorem msg_fst (ctx : C2Ctx) (c : Nat) : (ctx.msg c).1 = ctx.hdr c := rfl

theorem msg_snd_fst (ctx : C2Ctx) (c : Nat) :
    (ctx.msg c).2.1 = ctx.nonces.getD c [] := rfl

/-- Receiver chain position after processing `done` (0 before the first
message). -/
def nrOf (done : List Nat) : Nat := if done = [] then 0 else maxD done + 1

theorem nrOf_nil : nrOf [] = 0 := rfl

theorem nrOf_ne (done : List Nat) (h : done ≠ []) : nrOf done = maxD done + 1 := by
  rw [nrOf, if_neg h]

theorem nrOf_singleton (c : Nat) : nrOf [c] = c + 1 := by
  rw [nrOf_ne [c] (by simp), maxD_single]

theorem nrOf_append_single (done : List Nat) (c : Nat) :
    nrOf (done ++ [c]) = maxD (done ++ [c]) + 1 :=
  nrOf_ne _ (by simp)

/-- Invariant preservation along any delivery order obeying the gap
discipline: all plaintexts are recovered and the skipped-key map tracks
exactly the undelivered counters below the maximum. -/
theorem process_inv (ctx : C2Ctx) :
    ∀ (order done : List Nat) (b : RatchetState) (i : Nat),
      (done = [] → b = ctx.bob0) →
      (done ≠ [] → ctx.inv done b) →
      (done ++ order).Nodup →
      gapsOK (nrOf done) order = true →
      ∃ b', processAll ctx.fresh b i (order.map (fun c => ctx.msg c))
          = .ok (order.map (fun c => ctx.pts.getD c ""), b')
        ∧ (done ++ order ≠ [] → ctx.inv (done ++ order) b') := by
  intro order
  induction order with
  | nil =>
    intro done b i h0 hI _ _
    refine ⟨b, by simp [processAll], ?_⟩
    rw [List.append_nil]
    exact hI
  | cons c rest ih =>
    intro done b i h0 hI hnd hgap
    simp only [gapsOK, Bool.and_eq_true, decide_eq_true_eq] at hgap
    obtain ⟨hc_le, hgap'⟩ := hgap
    have hcnotdone : c ∉ done := by
      intro hc
      exact (List.nodup_append.mp hnd).2.2 hc (by simp)
    by_cases hd : done = []
    · subst hd
      have hb : b = ctx.bob0 := h0 rfl
      subst hb
      rw [nrOf_nil] at hc_le
      have hstep := step_first ctx c (ctx.fresh i) (by
        simp only [MAX_SKIP] at hc_le ⊢
        omega)
      have hinv1 : ctx.inv [c] (ctx.afterFirst c (ctx.fresh i)) := by
        refine ⟨rfl, ?_, ?_, ?_⟩ <;>
          simp [C2Ctx.afterFirst, maxD_single]
      obtain ⟨b', hp, hinv'⟩ := ih [c] (ctx.afterFirst c (ctx.fresh i)) (i + 1)
        (by intro h; exact absurd h (by simp))
        (fun _ => hinv1)
        (by simpa using hnd)
        (by
          rw [nrOf_singleton]
          rw [nrOf_nil, Nat.zero_max] at hgap'
          exact hgap')
      refine ⟨b', ?_, ?_⟩
      · simp only [List.map_cons, processAll, msg_fst, msg_snd_fst]
        rw [hstep, except_bind_ok, hp, except_bind_ok]
      · intro _
        have hfin := hinv' (by simp)
        simpa using hfin
    · have hIdone := hI hd
      rw [nrOf_ne done hd] at hc_le hgap'
      by_cases hlt : c < maxD done + 1
      · have hstep := step_skipped ctx done b c (ctx.fresh i) hIdone hlt hcnotdone
        have hmax : maxD (done ++ [c]) = maxD done := by
          rw [maxD_append_single]
          omega
        have hinv1 : ctx.inv (done ++ [c])
            { b with MKSKIPPED := ctx.gapMap (done ++ [c]) (maxD done + 1) } := by
          obtain ⟨i1, i2, i3, _⟩ := hIdone
          exact ⟨i1, by rw [hmax]; exact i2, by rw [hmax]; exact i3,
            by rw [hmax]⟩
        obtain ⟨b', hp, hinv'⟩ := ih (done ++ [c]) _ (i + 1)
          (by intro h; exact absurd h (by simp))
          (fun _ => hinv1)
          (by rw [List.append_assoc, List.singleton_append]; exact hnd)
          (by
            rw [nrOf_append_single, hmax]
            rw [Nat.max_eq_left (by omega)] at hgap'
            exact hgap')
        refine ⟨b', ?_, ?_⟩
        · simp only [List.map_cons, processAll, msg_fst, msg_snd_fst]
          rw [hstep, except_bind_ok, hp, except_bind_ok]
        · intro _
          have hfin := hinv' (by simp)
          rw [List.append_assoc, List.singleton_append] at hfin
          exact hfin
      · have hge : maxD done + 1 ≤ c := by omega
        have hstep := step_new ctx done b c (ctx.fresh i) hIdone hge (by omega)
        have hmax : maxD (done ++ [c]) = c := by
          rw [maxD_append_single]
          omega
        have hinv1 : ctx.inv (done ++ [c])
            { b with CKr := some (ckIter ctx.ck0 (c + 1)), Nr := c + 1,
                     MKSKIPPED := ctx.gapMap (done ++ [c]) (c + 1) } := by
          obtain ⟨i1, _, _, _⟩ := hIdone
          exact ⟨i1, by rw [hmax], by rw [hmax], by rw [hmax]⟩
        obtain ⟨b', hp, hinv'⟩ := ih (done ++ [c]) _ (i + 1)
          (by intro h; exact absurd h (by simp))
          (fun _ => hinv1)
          (by rw [List.append_assoc, List.singleton_append]; exact hnd)
          (by
            rw [nrOf_append_single, hmax]
            rw [Nat.max_eq_right (by omega)] at hgap'
            exact hgap')
        refine ⟨b', ?_, ?_⟩
        · simp only [List.map_cons, processAll, msg_fst, msg_snd_fst]
          rw [hstep, except_bind_ok, hp, except_bind_ok]
        · intro _
          have hfin := hinv' (by simp)
          rw [List.append_assoc, List.singleton_append] at hfin
          exact hfin

/-- Placeholder element for out-of-range `getD` reads. -/
def dummyEnc : EncryptResult :=
  { header := { dh := "", pn := 0, n := 0 }, nonce := [],
    ciphertext := { body := [], tag := (0, [], "", []) },
    state := initResponder 0 { publicKey := 0, privateKey := 0 } }

theorem zip_getD :
    ∀ (l1 : List String) (l2 : List (List Nat)) (c : Nat),
      c < l1.length → c < l2.length →
      (l1.zip l2).getD c ("", []) = (l1.getD c "", l2.getD c []) := by
  intro l1
  induction l1 with
  | nil => intro l2 c h _; simp at h
  | cons x t ih =>
    intro l2 c h1 h2
    cases l2 with
    | nil => simp at h2
    | cons y t2 =>
      cases c with
      | zero => simp [List.getD]
      | succ c =>
        simp only [List.zip_cons_cons, List.getD_cons_succ]
        exact ih t2 c (by simpa using h1) (by simpa using h2)

theorem maxD_le (l : List Nat) (K : Nat) (h : ∀ j ∈ l, j ≤ K) : maxD l ≤ K := by
  induction l with
  | nil => exact Nat.zero_le K
  | cons x t ih =>
    simp only [maxD, List.foldr_cons]
    have h1 : x ≤ K := h x (by simp)
    have h2 : maxD t ≤ K := ih (fun j hj => h j (by simp [hj]))
    simp only [maxD] at h2
    omega

/-- C2: for every pair of ratchet sessions initialized from the same X3DH
shared secret and every sequence of N messages produced by the sender with
`ratchetEncrypt`, if the receiver applies `ratchetDecrypt` to the N
messages in any order whose counter gaps never exceed `MAX_SKIP`, then
every call returns the original plaintext, and after all N messages have
been processed the receiver's MKSKIPPED map is empty. -/
theorem ratchet_out_of_order_delivery
    (ss spkPriv aSeed : Nat) (pts : List String) (nonces : List (List Nat))
    (fresh : Nat → Nat) (order : List Nat)
    (results : List EncryptResult) (aliceEnd : RatchetState)
    (hlen : nonces.length = pts.length)
    (hsend : sendAll (initInitiator ss (xPubOf spkPriv) aSeed) (pts.zip nonces)
      = .ok (results, aliceEnd))
    (hperm : order.Perm (List.range pts.length))
    (hgap : gapsOK 0 order = true) :
    ∃ bobEnd,
      processAll fresh (initResponder ss (generateX25519KeyPair spkPriv)) 0
        (order.map (fun c =>
          ((results.getD c dummyEnc).header, (results.getD c dummyEnc).nonce,
           (results.getD c dummyEnc).ciphertext)))
        = .ok (order.map (fun c => pts.getD c ""), bobEnd)
      ∧ bobEnd.MKSKIPPED = [] := by
  have hmemN : ∀ c ∈ order, c < pts.length := by
    intro c hc
    exact List.mem_range.mp (hperm.mem_iff.mp hc)
  -- package the scenario
  let ctx : C2Ctx :=
    { ss := ss, spkPriv := spkPriv, aSeed := aSeed, pts := pts,
      nonces := nonces, fresh := fresh }
  have hres : results = ctx.sentList 0 (pts.zip nonces) := by
    have hspec := sendAll_spec ctx (pts.zip nonces) 0
    have halice : ctx.aliceAt 0 = initInitiator ss (xPubOf spkPriv) aSeed := rfl
    rw [halice, hsend] at hspec
    exact (Prod.mk.injEq _ _ _ _).mp (Except.ok.inj hspec) |>.1
  have hmsgs : order.map (fun c =>
        ((results.getD c dummyEnc).header, (results.getD c dummyEnc).nonce,
         (results.getD c dummyEnc).ciphertext))
      = order.map (fun c => ctx.msg c) := by
    apply List.map_congr_left
    intro c hc
    have hcN : c < pts.length := hmemN c hc
    have hczip : c < (pts.zip nonces).length := by
      rw [List.length_zip, hlen]
      omega
    rw [hres, sentList_getD ctx dummyEnc (pts.zip nonces) 0 c hczip]
    rw [zip_getD pts nonces c hcN (by omega)]
    simp only [Nat.zero_add, C2Ctx.msg]
  rw [hmsgs]
  obtain ⟨b', hp, hinv'⟩ := process_inv ctx order [] ctx.bob0 0
    (fun _ => rfl)
    (fun h => absurd rfl h)
    (by
      rw [List.nil_append]
      exact hperm.nodup_iff.mpr (List.nodup_range _))
    hgap
  refine ⟨b', ?_, ?_⟩
  · exact hp
  · by_cases hord : order = []
    · subst hord
      simp only [List.map_nil, processAll] at hp
      have hb := (Prod.mk.injEq _ _ _ _).mp (Except.ok.inj hp) |>.2
      rw [← hb]
      rfl
    · have hfin := hinv' (by simpa using hord)
      rw [List.nil_append] at hfin
      obtain ⟨_, _, _, h4⟩ := hfin
      rw [h4]
      unfold C2Ctx.gapMap
      have hfilter : ((List.range (maxD order + 1)).filter
          (fun j => decide (j ∉ order))) = [] := by
        rw [List.filter_eq_nil_iff]
        intro j hj
        have hjm : j < maxD order + 1 := List.mem_range.mp hj
        have hmax : maxD order ≤ pts.length - 1 := by
          apply maxD_le
          intro k hk
          have := hmemN k hk
          omega
        have hN : 0 < pts.length := by
          have : order ≠ [] := hord
          cases ho : order with
          | nil => exact absurd ho this
          | cons a t =>
            have : a < pts.length := hmemN a (by rw [ho]; simp)
            omega
        have hjN : j < pts.length := by omega
        have : j ∈ order := hperm.mem_iff.mpr (List.mem_range.mpr hjN)
        simp [this]
      rw [hfilter]
      rfl

/-- Concrete plaintexts of the C2 witness scenario. -/
def c2wPts : List String := ["alpha", "beta", "gamma"]

/-- Concrete nonces of the C2 witness scenario. -/
def c2wNonces : List (List Nat) := [[1], [2], [3]]

/-- The witness sender run. -/
def c2wSendT : Except RatchetError (List EncryptResult × RatchetState) :=
  sendAll (initInitiator 1 (xPubOf 2) 3) (c2wPts.zip c2wNonces)

/-- Messages produced by the witness sender run. -/
def c2wRes : List EncryptResult := (c2wSendT.toOption.getD ([], dummyEnc.state)).1

/-- Final sender state of the witness run. -/
def c2wAlice : RatchetState := (c2wSendT.toOption.getD ([], dummyEnc.state)).2

/-- Witness for C2: three messages delivered in the order third, first,
second are all recovered and the skipped-key map ends empty. -/
theorem ratchet_out_of_order_delivery_witness :
    c2wNonces.length = c2wPts.length ∧
    sendAll (initInitiator 1 (xPubOf 2) 3) (c2wPts.zip c2wNonces)
      = .ok (c2wRes, c2wAlice) ∧
    ([2, 0, 1] : List Nat).Perm (List.range c2wPts.length) ∧
    gapsOK 0 [2, 0, 1] = true ∧
    ∃ bobEnd,
      processAll (fun _ => 7) (initResponder 1 (generateX25519KeyPair 2)) 0
        (([2, 0, 1] : List Nat).map (fun c =>
          ((c2wRes.getD c dummyEnc).header, (c2wRes.getD c dummyEnc).nonce,
           (c2wRes.getD c dummyEnc).ciphertext)))
        = .ok (([2, 0, 1] : List Nat).map (fun c => c2wPts.getD c ""), bobEnd)
      ∧ bobEnd.MKSKIPPED = [] :=
  ⟨rfl, by rfl, by decide, by rfl,
    ratchet_out_of_order_delivery 1 2 3 c2wPts c2wNonces (fun _ => 7) [2, 0, 1]
      c2wRes c2wAlice rfl (by rfl) (by decide) (by rfl)⟩

/-! ### C3 development: tamper detection via AEAD header binding -/

theorem bind_eq_ok {ε α β : Type} {e : Except ε α} {k : α → Except ε β}
    {b : β} (h : (e >>= k) = .ok b) : ∃ a, e = .ok a ∧ k a = .ok b := by
  cases e with
  | error err => exact absurd h (by intro hc; exact Except.noConfusion hc)
  | ok a => exact ⟨a, rfl, h⟩

theorem aeadDecrypt_some {k : Nat} {n : List Nat} {ad : String}
    {ct : AeadCiphertext} {p : String}
    (h : aeadDecrypt k n ad ct = some p) : ct.tag = (k, n, ad, ct.body) := by
  unfold aeadDecrypt at h
  by_cases ht : ct.tag = (k, n, ad, ct.body)
  · exact ht
  · rw [if_neg ht] at h
    exact Option.noConfusion h

/-- The non-AEAD part of `ratchetDecrypt` depends only on the state and the
header: a successful run factors every other ciphertext through the same
message key and post-state. -/
theorem decrypt_path (s : RatchetState) (h : MessageHeader) (nonce : List Nat)
    (f : Nat) (ct₀ : AeadCiphertext) (pt : String) (st : RatchetState)
    (hok : ratchetDecrypt s h nonce ct₀ f = .ok (pt, st)) :
    ∃ mk, ∀ ct, ratchetDecrypt s h nonce ct f
      = match aeadDecrypt mk nonce (headerJson h) ct with
        | some p => .ok (p, st)
        | none => .error .decryptFailed := by
  simp only [ratchetDecrypt] at hok ⊢
  cases hmg : mapGet s.MKSKIPPED (fromBase64 h.dh, h.n) with
  | some mk =>
    simp only [hmg] at hok ⊢
    refine ⟨mk, fun ct => ?_⟩
    cases hdec : aeadDecrypt mk nonce (headerJson h) ct₀ with
    | none =>
      rw [hdec] at hok
      exact absurd hok (by intro hc; exact Except.noConfusion hc)
    | some p0 =>
      rw [hdec] at hok
      have hst : st = { s with MKSKIPPED := mapDelete s.MKSKIPPED (fromBase64 h.dh, h.n) } := by
        have := Except.ok.inj hok
        exact (congrArg Prod.snd this).symm
      rw [hst]
  | none =>
    simp only [hmg] at hok ⊢
    cases hr : (if s.DHr = some (fromBase64 h.dh) then Except.ok s
                else dhRatchetStep s (fromBase64 h.dh) h.pn f) with
    | error e =>
      rw [hr] at hok
      exact absurd hok (by intro hc; exact Except.noConfusion hc)
    | ok s1 =>
      rw [hr] at hok
      dsimp only at hok
      cases hskip : skipMessageKeys s1 h.n with
      | error e =>
        rw [hskip] at hok
        exact absurd hok (by intro hc; exact Except.noConfusion hc)
      | ok s4 =>
        rw [hskip] at hok
        dsimp only at hok
        cases hckr : s4.CKr with
        | none =>
          rw [hckr] at hok
          exact absurd hok (by intro hc; exact Except.noConfusion hc)
        | some ckr =>
          rw [hckr] at hok
          dsimp only at hok
          cases hdec : aeadDecrypt (kdfCK ckr).2 nonce (headerJson h) ct₀ with
          | none =>
            rw [hdec] at hok
            exact absurd hok (by intro hc; exact Except.noConfusion hc)
          | some p0 =>
            rw [hdec] at hok
            have hst : st = { s4 with CKr := some (kdfCK ckr).1, Nr := s4.Nr + 1 } := by
              have := Except.ok.inj hok
              exact (congrArg Prod.snd this).symm
            refine ⟨(kdfCK ckr).2, fun ct => ?_⟩
            dsimp only
            rw [hskip]
            dsimp only
            rw [hckr]
            dsimp only
            rw [hst]

theorem decrypt_ok_tag (s : RatchetState) (h : MessageHeader)
    (nonce : List Nat) (ct : AeadCiphertext) (f : Nat) (pt : String)
    (st : RatchetState)
    (hok : ratchetDecrypt s h nonce ct f = .ok (pt, st)) :
    ∃ mk, ct.tag = (mk, nonce, headerJson h, ct.body) := by
  obtain ⟨mk, hform⟩ := decrypt_path s h nonce f ct pt st hok
  have hfc := hform ct
  rw [hok] at hfc
  cases hdec : aeadDecrypt mk nonce (headerJson h) ct with
  | none =>
    rw [hdec] at hfc
    exact absurd hfc (by intro hc; exact Except.noConfusion hc)
  | some p => exact ⟨mk, aeadDecrypt_some hdec⟩

/-- C3 (amended): for every successfully decryptable message, any
single-byte change to the ciphertext body, any change to its GCM tag, and
any change to a header field all make `ratchetDecrypt` fail — body and tag
mutations fail with `DecryptFailed`, and no mutated header can ever yield a
plaintext, because the canonical JSON serialization of the header is bound
as the AEAD associated data. -/
theorem ratchet_tamper_detection
    (s : RatchetState) (h : MessageHeader) (nonce : List Nat)
    (ct : AeadCiphertext) (f : Nat) (pt : String) (st : RatchetState)
    (hok : ratchetDecrypt s h nonce ct f = .ok (pt, st)) :
    (∀ i, i < ct.body.length → ∀ b, b ≠ ct.body.getD i 0 →
        ratchetDecrypt s h nonce { body := ct.body.set i b, tag := ct.tag } f
          = .error .decryptFailed) ∧
    (∀ t, t ≠ ct.tag →
        ratchetDecrypt s h nonce { body := ct.body, tag := t } f
          = .error .decryptFailed) ∧
    (∀ h', WFHeader h → WFHeader h' → h' ≠ h → ∀ f' pt' st',
        ratchetDecrypt s h' nonce ct f' ≠ .ok (pt', st')) := by
  obtain ⟨mk, hform⟩ := decrypt_path s h nonce f ct pt st hok
  have htag : ct.tag = (mk, nonce, headerJson h, ct.body) := by
    have hfc := hform ct
    rw [hok] at hfc
    cases hdec : aeadDecrypt mk nonce (headerJson h) ct with
    | none =>
      rw [hdec] at hfc
      exact absurd hfc (by intro hc; exact Except.noConfusion hc)
    | some p => exact aeadDecrypt_some hdec
  refine ⟨?_, ?_, ?_⟩
  · intro i hi b hb
    have hne : ct.tag ≠ (mk, nonce, headerJson h, ct.body.set i b) := by
      rw [htag]
      intro hc
      have hbodies : ct.body = ct.body.set i b :=
        congrArg (fun q => q.2.2.2) hc
      have hget : (ct.body.set i b).getD i 0 = b := by
        rw [List.getD_eq_getElem _ _ (by simpa using hi)]
        exact List.getElem_set_self (by simpa using hi)
      rw [← hbodies] at hget
      exact hb hget.symm
    have hdec : aeadDecrypt mk nonce (headerJson h)
        { body := ct.body.set i b, tag := ct.tag } = none := by
      unfold aeadDecrypt
      dsimp only
      rw [if_neg hne]
    rw [hform, hdec]
  · intro t ht
    have hne : t ≠ (mk, nonce, headerJson h, ct.body) := by
      rw [← htag]
      exact ht
    have hdec : aeadDecrypt mk nonce (headerJson h)
        { body := ct.body, tag := t } = none := by
      unfold aeadDecrypt
      dsimp only
      rw [if_neg hne]
    rw [hform, hdec]
  · intro h' w w' hne f' pt' st' hok'
    obtain ⟨mk', htag'⟩ := decrypt_ok_tag s h' nonce ct f' pt' st' hok'
    rw [htag] at htag'
    have hj : headerJson h = headerJson h' :=
      congrArg (fun q => q.2.2.1) htag'
    exact hne (headerJson_inj h' h w' w hj.symm)

/-- Alice's first message in the concrete tamper scenario. -/
def c3msg : EncryptResult :=
  (ratchetEncrypt (initInitiator 1 (xPubOf 2) 3) "hi" [9]).toOption.getD dummyEnc

/-- Bob's responder state in the concrete tamper scenario. -/
def c3bob : RatchetState := initResponder 1 (generateX25519KeyPair 2)

/-- The successful decryption in the concrete tamper scenario. -/
def c3dec : String × RatchetState :=
  (ratchetDecrypt c3bob c3msg.header c3msg.nonce c3msg.ciphertext 7).toOption.getD
    ("", dummyEnc.state)

/-- Counterexample to C3 as stated: a message produced by `ratchetEncrypt`
decrypts correctly, but mutating the header field `n` from 0 to 257 makes
`ratchetDecrypt` fail with `TooManySkipped`, not `DecryptFailed`. -/
theorem ratchet_tamper_counterexample :
    ratchetEncrypt (initInitiator 1 (xPubOf 2) 3) "hi" [9] = .ok c3msg ∧
    (ratchetDecrypt c3bob c3msg.header c3msg.nonce c3msg.ciphertext 7).toOption.map
      Prod.fst = some "hi" ∧
    ratchetDecrypt c3bob { c3msg.header with n := 257 } c3msg.nonce
      c3msg.ciphertext 7 = .error .tooManySkipped ∧
    RatchetError.tooManySkipped ≠ RatchetError.decryptFailed :=
  ⟨by rfl, by rfl, by rfl, by decide⟩

/-- Witness for the amended C3 at a concrete decryptable message. -/
theorem ratchet_tamper_detection_witness :
    ratchetDecrypt c3bob c3msg.header c3msg.nonce c3msg.ciphertext 7
      = .ok (c3dec.1, c3dec.2) ∧
    ((∀ i, i < c3msg.ciphertext.body.length →
        ∀ b, b ≠ c3msg.ciphertext.body.getD i 0 →
        ratchetDecrypt c3bob c3msg.header c3msg.nonce
          { body := c3msg.ciphertext.body.set i b, tag := c3msg.ciphertext.tag } 7
          = .error .decryptFailed) ∧
     (∀ t, t ≠ c3msg.ciphertext.tag →
        ratchetDecrypt c3bob c3msg.header c3msg.nonce
          { body := c3msg.ciphertext.body, tag := t } 7
          = .error .decryptFailed) ∧
     (∀ h', WFHeader c3msg.header → WFHeader h' → h' ≠ c3msg.header →
        ∀ f' pt' st',
        ratchetDecrypt c3bob h' c3msg.nonce c3msg.ciphertext f'
          ≠ .ok (pt', st'))) :=
  ⟨by rfl,
    ratchet_tamper_detection c3bob c3msg.header c3msg.nonce c3msg.ciphertext 7
      c3dec.1 c3dec.2 (by rfl)⟩

/-! ### C4 development: skipped-key caps -/

theorem mapSet_length (m : SkipMap) (k : Nat × Nat) (v : Nat) :
    (mapSet m k v).length ≤ m.length + 1 := by
  unfold mapSet
  by_cases h : m.any (fun e => e.1 == k)
  · rw [if_pos h, List.length_map]
    omega
  · rw [if_neg h, List.length_append]
    simp

theorem skipLoopFuel_length :
    ∀ (fuel ck dhr : Nat) (m : SkipMap) (nr : Nat),
      ((skipLoopFuel fuel ck dhr m nr).2.2).length ≤ m.length + fuel := by
  intro fuel
  induction fuel with
  | zero => intro ck dhr m nr; simp [skipLoopFuel]
  | succ fuel ih =>
    intro ck dhr m nr
    rw [skipLoopFuel]
    calc ((skipLoopFuel fuel (kdfCK ck).1 dhr
            (mapSet m (dhr, nr) (kdfCK ck).2) (nr + 1)).2.2).length
        ≤ (mapSet m (dhr, nr) (kdfCK ck).2).length + fuel := ih _ _ _ _
      _ ≤ m.length + 1 + fuel := by
          have := mapSet_length m (dhr, nr) (kdfCK ck).2
          omega
      _ = m.length + (fuel + 1) := by omega

theorem skipMessageKeys_growth (s : RatchetState) (u : Nat) (s' : RatchetState)
    (h : skipMessageKeys s u = .ok s') :
    s'.MKSKIPPED.length ≤ s.MKSKIPPED.length + MAX_SKIP := by
  unfold skipMessageKeys at h
  cases hc : s.CKr with
  | none =>
    rw [hc] at h
    cases hd : s.DHr <;> rw [hd] at h <;> dsimp only at h <;>
      · have := Except.ok.inj h
        rw [← this]
        omega
  | some ckr =>
    cases hd : s.DHr with
    | none =>
      rw [hc, hd] at h
      dsimp only at h
      have := Except.ok.inj h
      rw [← this]
      omega
    | some dhr =>
      rw [hc, hd] at h
      dsimp only at h
      by_cases hcap : s.Nr + MAX_SKIP < u
      · rw [if_pos hcap] at h
        exact absurd h (by intro hx; exact Except.noConfusion hx)
      · rw [if_neg hcap] at h
        have := Except.ok.inj h
        rw [← this]
        unfold skipLoop
        have hlen := skipLoopFuel_length (u - s.Nr) ckr dhr s.MKSKIPPED s.Nr
        simp only []
        have hfuel : u - s.Nr ≤ MAX_SKIP := by omega
        omega

theorem dhRatchetStep_growth (s : RatchetState) (dh pn f : Nat)
    (s1 : RatchetState) (h : dhRatchetStep s dh pn f = .ok s1) :
    s1.MKSKIPPED.length ≤ s.MKSKIPPED.length + MAX_SKIP := by
  unfold dhRatchetStep at h
  by_cases hcond : s.CKr ≠ none ∧ s.DHr ≠ none
  · rw [if_pos hcond] at h
    cases hs : skipMessageKeys s pn with
    | error e =>
      rw [hs] at h
      exact absurd h (by intro hx; exact Except.noConfusion hx)
    | ok s0 =>
      rw [hs] at h
      dsimp only at h
      have := Except.ok.inj h
      rw [← this]
      dsimp only
      exact skipMessageKeys_growth s pn s0 hs
  · rw [if_neg hcond] at h
    dsimp only at h
    have := Except.ok.inj h
    rw [← this]
    dsimp only
    omega

/-- C4 (amended): the `MAX_SKIP` cap applies per chain advance, not to the
call's total: `skipMessageKeys` fails with `TooManySkipped` exactly when the
requested advance of its one chain exceeds `MAX_SKIP` beyond `Nr`, and a
successful `ratchetDecrypt` call (previous-chain advance plus current-chain
advance) caches at most `2 * MAX_SKIP` additional skipped keys. -/
theorem ratchet_skip_per_chain_cap :
    (∀ (s : RatchetState) (u : Nat),
      skipMessageKeys s u = .error .tooManySkipped
        ↔ (s.CKr ≠ none ∧ s.DHr ≠ none ∧ s.Nr + MAX_SKIP < u)) ∧
    (∀ (s : RatchetState) (h : MessageHeader) (nonce : List Nat)
       (ct : AeadCiphertext) (f : Nat) (pt : String) (st : RatchetState),
      ratchetDecrypt s h nonce ct f = .ok (pt, st) →
      st.MKSKIPPED.length ≤ s.MKSKIPPED.length + 2 * MAX_SKIP) := by
  constructor
  · intro s u
    unfold skipMessageKeys
    cases hc : s.CKr with
    | none =>
      cases hd : s.DHr <;>
        simp
    | some ckr =>
      cases hd : s.DHr with
      | none => simp
      | some dhr =>
        dsimp only
        by_cases hcap : s.Nr + MAX_SKIP < u
        · rw [if_pos hcap]
          simp [hcap]
        · rw [if_neg hcap]
          simp [hcap]
  · intro s h nonce ct f pt st hok
    simp only [ratchetDecrypt] at hok
    cases hmg : mapGet s.MKSKIPPED (fromBase64 h.dh, h.n) with
    | some mk =>
      rw [hmg] at hok
      dsimp only at hok
      cases hdec : aeadDecrypt mk nonce (headerJson h) ct with
      | none =>
        rw [hdec] at hok
        exact absurd hok (by intro hx; exact Except.noConfusion hx)
      | some p =>
        rw [hdec] at hok
        have hinj := Except.ok.inj hok
        have hst : st = { s with
            MKSKIPPED := mapDelete s.MKSKIPPED (fromBase64 h.dh, h.n) } :=
          (congrArg Prod.snd hinj).symm
        rw [hst]
        have hdel : (mapDelete s.MKSKIPPED (fromBase64 h.dh, h.n)).length
            ≤ s.MKSKIPPED.length := List.length_filter_le _ _
        dsimp only
        omega
    | none =>
      rw [hmg] at hok
      dsimp only at hok
      cases hr : (if s.DHr = some (fromBase64 h.dh) then Except.ok s
                  else dhRatchetStep s (fromBase64 h.dh) h.pn f) with
      | error e =>
        rw [hr] at hok
        exact absurd hok (by intro hx; exact Except.noConfusion hx)
      | ok s1 =>
        rw [hr] at hok
        dsimp only at hok
        have hg1 : s1.MKSKIPPED.length ≤ s.MKSKIPPED.length + MAX_SKIP := by
          by_cases hcond : s.DHr = some (fromBase64 h.dh)
          · rw [if_pos hcond] at hr
            have := Except.ok.inj hr
            rw [this]
            omega
          · rw [if_neg hcond] at hr
            exact dhRatchetStep_growth s (fromBase64 h.dh) h.pn f s1 hr
        cases hskip : skipMessageKeys s1 h.n with
        | error e =>
          rw [hskip] at hok
          exact absurd hok (by intro hx; exact Except.noConfusion hx)
        | ok s4 =>
          rw [hskip] at hok
          dsimp only at hok
          have hg2 := skipMessageKeys_growth s1 h.n s4 hskip
          cases hckr : s4.CKr with
          | none =>
            rw [hckr] at hok
            exact absurd hok (by intro hx; exact Except.noConfusion hx)
          | some ckr =>
            rw [hckr] at hok
            dsimp only at hok
            cases hdec : aeadDecrypt (kdfCK ckr).2 nonce (headerJson h) ct with
            | none =>
              rw [hdec] at hok
              exact absurd hok (by intro hx; exact Except.noConfusion hx)
            | some p =>
              rw [hdec] at hok
              have hinj := Except.ok.inj hok
              have hst :
                  st = { s4 with CKr := some (kdfCK ckr).1, Nr := s4.Nr + 1 } :=
                (congrArg Prod.snd hinj).symm
              rw [hst]
              dsimp only
              omega

/-- Initiator state of the C4 counterexample conversation. -/
def c4alice0 : RatchetState := initInitiator 1 (xPubOf 2) 3

/-- Responder state of the C4 counterexample conversation. -/
def c4bob0 : RatchetState := initResponder 1 (generateX25519KeyPair 2)

/-- Alice's 151 first-chain plaintext/nonce pairs. -/
def c4pn1 : List (String × List Nat) := (List.range 151).map (fun i => ("m", [i]))

/-- Alice's first-chain send run. -/
def c4send1 : List EncryptResult × RatchetState :=
  (sendAll c4alice0 c4pn1).toOption.getD ([], dummyEnc.state)

/-- Alice after sending 151 first-chain messages. -/
def c4alice1 : RatchetState := c4send1.2

/-- Alice's first message (counter 0). -/
def c4msg0 : EncryptResult := c4send1.1.getD 0 dummyEnc

/-- Bob after decrypting Alice's first message. -/
def c4bob1 : RatchetState :=
  ((ratchetDecrypt c4bob0 c4msg0.header c4msg0.nonce c4msg0.ciphertext 7).toOption.getD
    ("", dummyEnc.state)).2

/-- Bob's reply (triggers Alice's DH ratchet). -/
def c4reply : EncryptResult := (ratchetEncrypt c4bob1 "r" [5]).toOption.getD dummyEnc

/-- Bob after sending his reply: empty skipped-key map, `Nr = 1`. -/
def c4bob2 : RatchetState := c4reply.state

/-- Alice after decrypting Bob's reply (her previous chain length is 151). -/
def c4alice2 : RatchetState :=
  ((ratchetDecrypt c4alice1 c4reply.header c4reply.nonce c4reply.ciphertext 11).toOption.getD
    ("", dummyEnc.state)).2

/-- Alice's 151 second-chain plaintext/nonce pairs. -/
def c4pn2 : List (String × List Nat) :=
  (List.range 151).map (fun i => ("x", [i + 300]))

/-- Alice's second-chain send run. -/
def c4send2 : List EncryptResult × RatchetState :=
  (sendAll c4alice2 c4pn2).toOption.getD ([], dummyEnc.state)

/-- Alice's second-chain message with counter 150 (header `pn = 151`). -/
def c4last : EncryptResult := c4send2.1.getD 150 dummyEnc

/-- Bob's decryption of that message: one `ratchetDecrypt` call skipping
150 keys on the previous chain plus 150 on the new chain. -/
def c4final : Except RatchetError (String × RatchetState) :=
  ratchetDecrypt c4bob2 c4last.header c4last.nonce c4last.ciphertext 13

/-- Counterexample to C4 as stated: a single `ratchetDecrypt` call derives
and caches 300 skipped message keys in total (150 on the previous receiving
chain plus 150 on the current one), exceeds the claimed total capacity of
`MAX_SKIP = 256`, and still succeeds instead of failing with
`TooManySkipped`. -/
theorem ratchet_skip_total_counterexample :
    c4bob2.MKSKIPPED = [] ∧
    c4last.header.pn = 151 ∧ c4last.header.n = 150 ∧
    c4final.toOption.map (fun r => (r.1, r.2.MKSKIPPED.length))
      = some ("x", 300) ∧
    256 < 300 := ⟨rfl, rfl, rfl, by decide, by decide⟩

/-- A small successfully decrypted message for the C4 witness. -/
def c4wmsg : EncryptResult :=
  (ratchetEncrypt (initInitiator 20 (xPubOf 21) 22) "w" [4]).toOption.getD dummyEnc

/-- The matching responder for the C4 witness. -/
def c4wbob : RatchetState := initResponder 20 (generateX25519KeyPair 21)

/-- The successful decryption of the C4 witness. -/
def c4wdec : String × RatchetState :=
  (ratchetDecrypt c4wbob c4wmsg.header c4wmsg.nonce c4wmsg.ciphertext 23).toOption.getD
    ("", dummyEnc.state)

/-- Witness for the amended C4 at a concrete decryptable message. -/
theorem ratchet_skip_per_chain_cap_witness :
    ratchetDecrypt c4wbob c4wmsg.header c4wmsg.nonce c4wmsg.ciphertext 23
      = .ok (c4wdec.1, c4wdec.2) ∧
    c4wdec.2.MKSKIPPED.length ≤ c4wbob.MKSKIPPED.length + 2 * MAX_SKIP :=
  ⟨by rfl,
    ratchet_skip_per_chain_cap.2 c4wbob c4wmsg.header c4wmsg.nonce
      c4wmsg.ciphertext 23 c4wdec.1 c4wdec.2 (by rfl)⟩

/-! ### Session and prekey store (`sessionManager.ts`) -/

/-- A locally stored one-time prekey (`types.ts` `LocalPrekeyStore`). -/
structure OPKEntry where
  id : Nat
  publicKey : Nat
  privateKey : Nat
deriving DecidableEq, Repr

/-- The locally stored signed prekey. -/
structure SignedPrekeyEntry where
  id : Nat
  publicKey : Nat
  privateKey : Nat
  createdAt : Nat
deriving DecidableEq, Repr

/-- Local prekey store persisted in secure storage. -/
structure LocalPrekeyStore where
  signedPrekey : SignedPrekeyEntry
  oneTimePrekeys : List OPKEntry
  nextOPKId : Nat
deriving DecidableEq, Repr

/-- The `findIndex` + `splice(idx, 1)` of `consumeLocalOPK`: removes the
first entry with the given id, preserving the order of the rest. -/
def consumeRemoveFirst : List OPKEntry → Nat → Option (OPKEntry × List OPKEntry)
  | [], _ => none
  | k :: rest, opkId =>
    if k.id = opkId then some (k, rest)
    else (consumeRemoveFirst rest opkId).map (fun fr => (fr.1, k :: fr.2))

/-- `consumeLocalOPK` (`sessionManager.ts`): consume a local one-time prekey
by id, returning its private key and the store without that entry. -/
def consumeLocalOPK (store : LocalPrekeyStore) (opkId : Nat) :
    Option (Nat × LocalPrekeyStore) :=
  (consumeRemoveFirst store.oneTimePrekeys opkId).map
    (fun fr => (fr.1.privateKey, { store with oneTimePrekeys := fr.2 }))

theorem consumeRemoveFirst_absent (opkId : Nat) :
    ∀ (l : List OPKEntry), (∀ k ∈ l, k.id ≠ opkId) →
      consumeRemoveFirst l opkId = none := by
  intro l
  induction l with
  | nil => intro _; rfl
  | cons k rest ih =>
    intro h
    rw [consumeRemoveFirst, if_neg (h k (by simp)),
      ih (fun q hq => h q (by simp [hq]))]
    rfl

theorem consumeRemoveFirst_present (opkId : Nat) :
    ∀ (l : List OPKEntry), (l.map (fun k => k.id)).Nodup →
      ∀ k ∈ l, k.id = opkId →
      consumeRemoveFirst l opkId
        = some (k, l.filter (fun e => decide (e.id ≠ opkId))) := by
  intro l
  induction l with
  | nil => intro _ k hk; simp at hk
  | cons h0 rest ih =>
    intro hnd k hk hkid
    have hnd' : (rest.map (fun k => k.id)).Nodup := (List.nodup_cons.mp hnd).2
    by_cases hh : h0.id = opkId
    · have hk0 : k = h0 := by
        rcases List.mem_cons.mp hk with h1 | h1
        · exact h1
        · exfalso
          have : h0.id ∉ rest.map (fun k => k.id) := (List.nodup_cons.mp hnd).1
          exact this (by
            rw [hh, ← hkid]
            exact List.mem_map.mpr ⟨k, h1, rfl⟩)
      rw [consumeRemoveFirst, if_pos hh, hk0]
      congr 1
      rw [List.filter_cons, if_neg (by simpa using hh)]
      have hrest : rest.filter (fun e => decide (e.id ≠ opkId)) = rest := by
        apply List.filter_eq_self.mpr
        intro e he
        simp only [decide_eq_true_eq]
        intro hc
        have : h0.id ∉ rest.map (fun q => q.id) := (List.nodup_cons.mp hnd).1
        exact this (by rw [hh, ← hc]; exact List.mem_map.mpr ⟨e, he, rfl⟩)
      rw [hrest]
    · have hkr : k ∈ rest := by
        rcases List.mem_cons.mp hk with h1 | h1
        · exact absurd (h1 ▸ hkid) hh
        · exact h1
      rw [consumeRemoveFirst, if_neg hh, ih hnd' k hkr hkid]
      rw [List.filter_cons, if_pos (by simpa using hh)]
      rfl

/-- C7 (amended): on stores whose OPK ids are pairwise distinct — as every
store produced by the prekey-store operations is — consumption is one-shot:
an absent id yields `none`; a present id yields that entry's private key
and a store from which the id is gone, so a second consumption of the same
id yields `none`. -/
theorem consumeLocalOPK_one_shot (store : LocalPrekeyStore) (opkId : Nat)
    (hnd : (store.oneTimePrekeys.map (fun k => k.id)).Nodup) :
    ((∀ k ∈ store.oneTimePrekeys, k.id ≠ opkId) →
      consumeLocalOPK store opkId = none) ∧
    (∀ k ∈ store.oneTimePrekeys, k.id = opkId →
      ∃ st', consumeLocalOPK store opkId = some (k.privateKey, st')
        ∧ st'.oneTimePrekeys
            = store.oneTimePrekeys.filter (fun e => decide (e.id ≠ opkId))
        ∧ (∀ q ∈ st'.oneTimePrekeys, q.id ≠ opkId)
        ∧ consumeLocalOPK st' opkId = none) := by
  constructor
  · intro habs
    unfold consumeLocalOPK
    rw [consumeRemoveFirst_absent opkId store.oneTimePrekeys habs]
    rfl
  · intro k hk hkid
    refine ⟨{ store with oneTimePrekeys :=
        store.oneTimePrekeys.filter (fun e => decide (e.id ≠ opkId)) }, ?_, rfl, ?_, ?_⟩
    · unfold consumeLocalOPK
      rw [consumeRemoveFirst_present opkId store.oneTimePrekeys hnd k hk hkid]
      rfl
    · intro q hq
      have := List.mem_filter.mp hq
      simpa using this.2
    · unfold consumeLocalOPK
      rw [consumeRemoveFirst_absent opkId _ (fun q hq => by
        have := List.mem_filter.mp hq
        simpa using this.2)]
      rfl

/-- A store with a duplicated OPK id (never produced by the store
operations themselves). -/
def c7store : LocalPrekeyStore :=
  { signedPrekey := { id := 0, publicKey := 1, privateKey := 2, createdAt := 3 },
    oneTimePrekeys :=
      [{ id := 5, publicKey := 10, privateKey := 11 },
       { id := 5, publicKey := 12, privateKey := 13 }],
    nextOPKId := 6 }

/-- The store after the first consumption of id 5. -/
def c7store2 : LocalPrekeyStore := ((consumeLocalOPK c7store 5).getD (0, c7store)).2

/-- Counterexample to C7 as stated over every local prekey store: on a
store holding two entries with the same id, a second `consumeLocalOPK` of
that id returns another key instead of `null`. -/
theorem consumeLocalOPK_counterexample :
    consumeLocalOPK c7store 5
      = some (11, { c7store with
          oneTimePrekeys := [{ id := 5, publicKey := 12, privateKey := 13 }] }) ∧
    consumeLocalOPK c7store2 5 ≠ none := ⟨by decide, by decide⟩

/-- A duplicate-free concrete store for the C7 witness. -/
def c7wstore : LocalPrekeyStore :=
  { signedPrekey := { id := 0, publicKey := 1, privateKey := 2, createdAt := 3 },
    oneTimePrekeys := [{ id := 5, publicKey := 10, privateKey := 11 }],
    nextOPKId := 6 }

/-- Witness for the amended C7 at a concrete duplicate-free store. -/
theorem consumeLocalOPK_one_shot_witness :
    (c7wstore.oneTimePrekeys.map (fun k => k.id)).Nodup ∧
    consumeLocalOPK c7wstore 7 = none :=
  ⟨by decide, (consumeLocalOPK_one_shot c7wstore 7 (by decide)).1 (by decide)⟩

/-- `OPK_BATCH_SIZE` (`types.ts`). -/
def OPK_BATCH_SIZE : Nat := 50

/-- `OPK_LOW_THRESHOLD` (`types.ts`). -/
def OPK_LOW_THRESHOLD : Nat := 20

/-- `generatePrekeyBundle` (`sessionManager.ts`): fresh signed prekey with
id `Date.now()` (the `spkNow` parameter) and `OPK_BATCH_SIZE` one-time
prekeys with ids `spkId + i + 1`.  Randomness is the explicit `rnd` seed
stream; the two `Date.now()` reads are the `spkNow` / `createdNow`
parameters. -/
def generatePrekeyBundle (rnd : Nat → Nat) (spkNow createdNow : Nat) :
    LocalPrekeyStore :=
  let spk := generateX25519KeyPair (rnd 0)
  let spkId := spkNow
  { signedPrekey :=
      { id := spkId, publicKey := spk.publicKey, privateKey := spk.privateKey,
        createdAt := createdNow },
    oneTimePrekeys := (List.range OPK_BATCH_SIZE).map (fun i =>
      { id := spkId + i + 1,
        publicKey := (generateX25519KeyPair (rnd (i + 1))).publicKey,
        privateKey := (generateX25519KeyPair (rnd (i + 1))).privateKey }),
    nextOPKId := spkId + OPK_BATCH_SIZE + 1 }

/-- `generateAdditionalOPKs` (`sessionManager.ts`): appends `count` fresh
one-time prekeys with consecutive ids starting at `store.nextOPKId`, and
returns the updated store together with the `(id, publicKey)` pairs for
upload. -/
def generateAdditionalOPKs (store : LocalPrekeyStore) (count : Nat)
    (rnd : Nat → Nat) : LocalPrekeyStore × List (Nat × Nat) :=
  let newKeys : List OPKEntry := (List.range count).map (fun i =>
    { id := store.nextOPKId + i,
      publicKey := (generateX25519KeyPair (rnd i)).publicKey,
      privateKey := (generateX25519KeyPair (rnd i)).privateKey })
  let newPublicKeys := (List.range count).map (fun i =>
    (store.nextOPKId + i, (generateX25519KeyPair (rnd i)).publicKey))
  ({ store with
      oneTimePrekeys := store.oneTimePrekeys ++ newKeys,
      nextOPKId := store.nextOPKId + count },
   newPublicKeys)

/-- The C8 invariant: OPK ids pairwise distinct and all below `nextOPKId`. -/
def PrekeyInv (store : LocalPrekeyStore) : Prop :=
  (store.oneTimePrekeys.map (fun k => k.id)).Nodup ∧
  ∀ k ∈ store.oneTimePrekeys, k.id < store.nextOPKId

instance : DecidablePred PrekeyInv := fun store => by
  unfold PrekeyInv; infer_instance

theorem consumeRemoveFirst_sublist :
    ∀ (l : List OPKEntry) (opkId : Nat) (k : OPKEntry) (rest : List OPKEntry),
      consumeRemoveFirst l opkId = some (k, rest) → rest.Sublist l := by
  intro l
  induction l with
  | nil => intro opkId k rest h; exact Option.noConfusion h
  | cons h0 tail ih =>
    intro opkId k rest h
    rw [consumeRemoveFirst] at h
    by_cases hh : h0.id = opkId
    · rw [if_pos hh] at h
      have h2 : rest = tail :=
        (congrArg Prod.snd ((Option.some.injEq _ _).mp h)).symm
      rw [h2]
      exact List.sublist_cons_self h0 tail
    · rw [if_neg hh] at h
      cases hr : consumeRemoveFirst tail opkId with
      | none => rw [hr] at h; exact Option.noConfusion h
      | some fr =>
        rw [hr] at h
        simp only [Option.map_some', Option.some.injEq] at h
        have h2 : rest = h0 :: fr.2 := (congrArg Prod.snd h).symm
        rw [h2]
        exact List.Sublist.cons₂ h0 (ih opkId fr.1 fr.2 (by rw [hr]))

/-- C8: id uniqueness of one-time prekeys. (a) `generatePrekeyBundle`
establishes the invariant, with every OPK id strictly above the signed
prekey id. (b) `generateAdditionalOPKs` preserves the invariant and
allocates exactly the `count` consecutive fresh ids `nextOPKId + i`, none
of which collides with an existing OPK id. (c) `consumeLocalOPK` preserves
the invariant. -/
theorem prekey_id_uniqueness :
    (∀ rnd spkNow createdNow,
      PrekeyInv (generatePrekeyBundle rnd spkNow createdNow) ∧
      (∀ k ∈ (generatePrekeyBundle rnd spkNow createdNow).oneTimePrekeys,
        (generatePrekeyBundle rnd spkNow createdNow).signedPrekey.id < k.id)) ∧
    (∀ store count rnd, PrekeyInv store →
      PrekeyInv (generateAdditionalOPKs store count rnd).1 ∧
      ((generateAdditionalOPKs store count rnd).2.map Prod.fst
        = (List.range count).map (fun i => store.nextOPKId + i)) ∧
      (∀ p ∈ (generateAdditionalOPKs store count rnd).2,
        ∀ k ∈ store.oneTimePrekeys, p.1 ≠ k.id)) ∧
    (∀ store opkId priv st', PrekeyInv store →
      consumeLocalOPK store opkId = some (priv, st') → PrekeyInv st') := by
  refine ⟨?_, ?_, ?_⟩
  · intro rnd spkNow createdNow
    refine ⟨⟨?_, ?_⟩, ?_⟩
    · simp only [generatePrekeyBundle]
      rw [List.map_map]
      exact List.Nodup.map
        (fun a b hab => by
          have h2 : spkNow + a + 1 = spkNow + b + 1 := hab
          omega)
        (List.nodup_range OPK_BATCH_SIZE)
    · intro k hk
      simp only [generatePrekeyBundle, List.mem_map, List.mem_range] at hk
      obtain ⟨i, hi, hik⟩ := hk
      show k.id < spkNow + OPK_BATCH_SIZE + 1
      rw [← hik]
      simp only
      omega
    · intro k hk
      simp only [generatePrekeyBundle, List.mem_map, List.mem_range] at hk
      obtain ⟨i, hi, hik⟩ := hk
      show spkNow < k.id
      rw [← hik]
      simp only
      omega
  · intro store count rnd hinv
    refine ⟨⟨?_, ?_⟩, ?_, ?_⟩
    · show ((store.oneTimePrekeys ++ _).map (fun k => k.id)).Nodup
      rw [List.map_append, List.nodup_append]
      refine ⟨hinv.1, ?_, ?_⟩
      · rw [List.map_map]
        exact List.Nodup.map
          (fun a b hab => by
            have h2 : store.nextOPKId + a = store.nextOPKId + b := hab
            omega)
          (List.nodup_range count)
      · intro a ha hb
        simp only [List.mem_map] at ha
        obtain ⟨k, hk, hka⟩ := ha
        rw [List.map_map, List.mem_map] at hb
        obtain ⟨i, hi, hia⟩ := hb
        have ha2 : a < store.nextOPKId := hka ▸ hinv.2 k hk
        have ha3 : store.nextOPKId + i = a := hia
        omega
    · intro k hk
      show k.id < store.nextOPKId + count
      rcases List.mem_append.mp hk with h1 | h1
      · have := hinv.2 k h1; omega
      · simp only [List.mem_map, List.mem_range] at h1
        obtain ⟨i, hi, hik⟩ := h1
        rw [← hik]; simp only; omega
    · show ((List.range count).map _).map Prod.fst = _
      rw [List.map_map]
      rfl
    · intro p hp k hk
      simp only [generateAdditionalOPKs, List.mem_map, List.mem_range] at hp
      obtain ⟨i, hi, hip⟩ := hp
      have hp1 : p.1 = store.nextOPKId + i := by rw [← hip]
      have := hinv.2 k hk
      omega
  · intro store opkId priv st' hinv hc
    unfold consumeLocalOPK at hc
    cases hr : consumeRemoveFirst store.oneTimePrekeys opkId with
    | none => rw [hr] at hc; exact Option.noConfusion hc
    | some fr =>
      rw [hr] at hc
      simp only [Option.map_some', Option.some.injEq] at hc
      have hst : st' = { store with oneTimePrekeys := fr.2 } :=
        (congrArg Prod.snd hc).symm
      have hsub : fr.2.Sublist store.oneTimePrekeys :=
        consumeRemoveFirst_sublist store.oneTimePrekeys opkId fr.1 fr.2 (by rw [hr])
      rw [hst]
      refine ⟨?_, ?_⟩
      · exact List.Nodup.sublist (List.Sublist.map _ hsub) hinv.1
      · intro k hk
        exact hinv.2 k (hsub.subset hk)

/-- Witness for C8 at a concrete seed stream and clock. -/
theorem prekey_id_uniqueness_witness :
    PrekeyInv (generatePrekeyBundle (fun i => i) 100 101) ∧
    PrekeyInv (generateAdditionalOPKs (generatePrekeyBundle (fun i => i) 100 101)
      3 (fun i => i + 60)).1 :=
  ⟨(prekey_id_uniqueness.1 (fun i => i) 100 101).1,
   ((prekey_id_uniqueness.2.1 (generatePrekeyBundle (fun i => i) 100 101)
      3 (fun i => i + 60) (prekey_id_uniqueness.1 (fun i => i) 100 101).1)).1⟩

/-! ### C6: ratchet state serialization round-trip (`sessionManager.ts`) -/

/-- `SerializedRatchetState` (`types.ts`): binary fields as base64 strings,
`null` as `none`, the skipped-key map as its entry list (a JS `Record`
preserves the `Map`'s insertion order). -/
structure SerializedRatchetState where
  DHs_pub : String
  DHs_priv : String
  DHr : Option String
  RK : String
  CKs : Option String
  CKr : Option String
  Ns : Nat
  Nr : Nat
  PN : Nat
  MKSKIPPED : List ((Nat × Nat) × String)
deriving DecidableEq, Repr

/-- `serializeState` (`sessionManager.ts`). -/
def serializeState (state : RatchetState) : SerializedRatchetState :=
  { DHs_pub := toBase64 state.DHs.publicKey,
    DHs_priv := toBase64 state.DHs.privateKey,
    DHr := state.DHr.map toBase64,
    RK := toBase64 state.RK,
    CKs := state.CKs.map toBase64,
    CKr := state.CKr.map toBase64,
    Ns := state.Ns, Nr := state.Nr, PN := state.PN,
    MKSKIPPED := state.MKSKIPPED.map (fun e => (e.1, toBase64 e.2)) }

/-- `deserializeState` (`sessionManager.ts`). -/
def deserializeState (s : SerializedRatchetState) : RatchetState :=
  { DHs := { publicKey := fromBase64 s.DHs_pub,
             privateKey := fromBase64 s.DHs_priv },
    DHr := s.DHr.map fromBase64,
    RK := fromBase64 s.RK,
    CKs := s.CKs.map fromBase64,
    CKr := s.CKr.map fromBase64,
    Ns := s.Ns, Nr := s.Nr, PN := s.PN,
    MKSKIPPED := s.MKSKIPPED.map (fun e => (e.1, fromBase64 e.2)) }

/-- Well-formed ratchet state: every binary field fits in 43 base64 digits
(32-byte values always do). -/
def WFState (s : RatchetState) : Prop :=
  s.DHs.publicKey < B64CAP ∧ s.DHs.privateKey < B64CAP ∧
  (∀ v, s.DHr = some v → v < B64CAP) ∧ s.RK < B64CAP ∧
  (∀ v, s.CKs = some v → v < B64CAP) ∧ (∀ v, s.CKr = some v → v < B64CAP) ∧
  (∀ e ∈ s.MKSKIPPED, e.2 < B64CAP)

/-- States reachable through the four ratchet-state constructors of
`doubleRatchet.ts`, with all externally supplied 32-byte values (seeds,
shared secrets stored as keys, prekey pairs, header DH values) in range. -/
inductive ReachableState : RatchetState → Prop where
  | initI (ss peerSpk seed : Nat) : peerSpk < B64CAP → seed < B64CAP →
      ReachableState (initInitiator ss peerSpk seed)
  | initR (ss : Nat) (kp : X25519KeyPair) : ss < B64CAP →
      kp.publicKey < B64CAP → kp.privateKey < B64CAP →
      ReachableState (initResponder ss kp)
  | enc (s : RatchetState) (pt : String) (nonce : List Nat)
      (r : EncryptResult) : ReachableState s →
      ratchetEncrypt s pt nonce = .ok r → ReachableState r.state
  | dec (s : RatchetState) (h : MessageHeader) (nonce : List Nat)
      (ct : AeadCiphertext) (seed : Nat) (pt : String) (st : RatchetState) :
      ReachableState s → fromBase64 h.dh < B64CAP → seed < B64CAP →
      ratchetDecrypt s h nonce ct seed = .ok (pt, st) → ReachableState st

theorem kdfRK_fst_lt (a b : Nat) : (kdfRK a b).1 < P25519 :=
  Nat.mod_lt _ P25519_pos

theorem kdfRK_snd_lt (a b : Nat) : (kdfRK a b).2 < P25519 :=
  Nat.mod_lt _ P25519_pos

theorem kdfCK_fst_lt (a : Nat) : (kdfCK a).1 < P25519 :=
  Nat.mod_lt _ P25519_pos

theorem kdfCK_snd_lt (a : Nat) : (kdfCK a).2 < P25519 :=
  Nat.mod_lt _ P25519_pos

theorem mapSet_mem (m : SkipMap) (k : Nat × Nat) (v : Nat)
    (e : (Nat × Nat) × Nat) (he : e ∈ mapSet m k v) : e ∈ m ∨ e = (k, v) := by
  unfold mapSet at he
  by_cases ha : m.any (fun q => q.1 == k)
  · rw [if_pos ha] at he
    rcases List.mem_map.mp he with ⟨e0, he0, heq⟩
    by_cases hk : e0.1 == k
    · right; rw [← heq, if_pos hk]
    · left; rw [← heq, if_neg hk]; exact he0
  · rw [if_neg ha] at he
    rcases List.mem_append.mp he with h1 | h1
    · exact Or.inl h1
    · right; simpa using h1

theorem skipLoopFuel_mem :
    ∀ (fuel ck dhr : Nat) (m : SkipMap) (nr : Nat),
      ∀ e ∈ (skipLoopFuel fuel ck dhr m nr).2.2, e ∈ m ∨ e.2 < P25519 := by
  intro fuel
  induction fuel with
  | zero => intro ck dhr m nr e he; exact Or.inl he
  | succ f ih =>
    intro ck dhr m nr e he
    rw [skipLoopFuel] at he
    rcases ih (kdfCK ck).1 dhr (mapSet m (dhr, nr) (kdfCK ck).2) (nr + 1) e he
      with h1 | h1
    · rcases mapSet_mem m (dhr, nr) (kdfCK ck).2 e h1 with h2 | h2
      · exact Or.inl h2
      · refine Or.inr ?_
        rw [h2]
        exact kdfCK_snd_lt ck
    · exact Or.inr h1

theorem skipLoopFuel_ck :
    ∀ (fuel ck dhr : Nat) (m : SkipMap) (nr : Nat),
      (skipLoopFuel fuel ck dhr m nr).1 = ck
        ∨ (skipLoopFuel fuel ck dhr m nr).1 < P25519 := by
  intro fuel
  induction fuel with
  | zero => intro ck dhr m nr; exact Or.inl rfl
  | succ f ih =>
    intro ck dhr m nr
    rw [skipLoopFuel]
    rcases ih (kdfCK ck).1 dhr (mapSet m (dhr, nr) (kdfCK ck).2) (nr + 1)
      with h1 | h1
    · rw [h1]; exact Or.inr (kdfCK_fst_lt ck)
    · exact Or.inr h1

theorem skipMessageKeys_WF (s : RatchetState) (u : Nat) (s' : RatchetState)
    (h : skipMessageKeys s u = .ok s') (hw : WFState s) : WFState s' := by
  unfold skipMessageKeys at h
  cases hc : s.CKr with
  | none =>
    rw [hc] at h
    cases hd : s.DHr <;> rw [hd] at h <;> dsimp only at h <;>
      · have := Except.ok.inj h
        rw [← this]
        exact hw
  | some ckr =>
    cases hd : s.DHr with
    | none =>
      rw [hc, hd] at h
      dsimp only at h
      have := Except.ok.inj h
      rw [← this]
      exact hw
    | some dhr =>
      rw [hc, hd] at h
      dsimp only at h
      by_cases hcap : s.Nr + MAX_SKIP < u
      · rw [if_pos hcap] at h
        exact absurd h (by intro hx; exact Except.noConfusion hx)
      · rw [if_neg hcap] at h
        have hinj := Except.ok.inj h
        rw [← hinj]
        obtain ⟨g1, g2, g3, g4, g5, g6, g7⟩ := hw
        refine ⟨g1, g2, ?_, g4, g5, ?_, ?_⟩
        · intro v hv
          injection hv with h2
          rw [← h2]
          exact g3 dhr hd
        · intro v hv
          injection hv with h2
          unfold skipLoop at h2
          rcases skipLoopFuel_ck (u - s.Nr) ckr dhr s.MKSKIPPED s.Nr with h3 | h3
          · rw [h2] at h3
            rw [h3]
            exact g6 ckr hc
          · rw [h2] at h3
            exact lt_trans h3 P25519_lt_B64CAP
        · intro e he
          have he2 : e ∈ (skipLoop ckr dhr s.MKSKIPPED s.Nr u).2.2 := he
          unfold skipLoop at he2
          rcases skipLoopFuel_mem (u - s.Nr) ckr dhr s.MKSKIPPED s.Nr e he2
            with h3 | h3
          · exact g7 e h3
          · exact lt_trans h3 P25519_lt_B64CAP

theorem dhRatchetStep_WF (s : RatchetState) (dh pn f : Nat)
    (s1 : RatchetState) (h : dhRatchetStep s dh pn f = .ok s1) (hw : WFState s)
    (hdh : dh < B64CAP) (hf : f < B64CAP) : WFState s1 := by
  unfold dhRatchetStep at h
  cases hs : (if s.CKr ≠ none ∧ s.DHr ≠ none
              then skipMessageKeys s pn else Except.ok s) with
  | error e =>
    rw [hs] at h
    exact absurd h (by intro hx; exact Except.noConfusion hx)
  | ok s0 =>
    rw [hs] at h
    dsimp only at h
    have hw0 : WFState s0 := by
      by_cases hcond : s.CKr ≠ none ∧ s.DHr ≠ none
      · rw [if_pos hcond] at hs
        exact skipMessageKeys_WF s pn s0 hs hw
      · rw [if_neg hcond] at hs
        have := Except.ok.inj hs
        rw [← this]
        exact hw
    have hinj := Except.ok.inj h
    rw [← hinj]
    obtain ⟨g1, g2, g3, g4, g5, g6, g7⟩ := hw0
    refine ⟨?_, ?_, ?_, ?_, ?_, ?_, ?_⟩
    · exact xPubOf_lt_B64CAP f
    · exact hf
    · intro v hv
      injection hv with h2
      rw [← h2]
      exact hdh
    · exact lt_trans (kdfRK_fst_lt _ _) P25519_lt_B64CAP
    · intro v hv
      injection hv with h2
      rw [← h2]
      exact lt_trans (kdfRK_snd_lt _ _) P25519_lt_B64CAP
    · intro v hv
      injection hv with h2
      rw [← h2]
      exact lt_trans (kdfRK_snd_lt _ _) P25519_lt_B64CAP
    · exact g7

theorem ratchetEncrypt_WF (s : RatchetState) (pt : String) (nonce : List Nat)
    (r : EncryptResult) (h : ratchetEncrypt s pt nonce = .ok r)
    (hw : WFState s) : WFState r.state := by
  unfold ratchetEncrypt at h
  cases hc : s.CKs with
  | none =>
    rw [hc] at h
    exact absurd h (by intro hx; exact Except.noConfusion hx)
  | some cks =>
    rw [hc] at h
    dsimp only at h
    have hinj := Except.ok.inj h
    have hst : r.state = { s with CKs := some (kdfCK cks).1, Ns := s.Ns + 1 } :=
      (congrArg EncryptResult.state hinj).symm
    rw [hst]
    obtain ⟨g1, g2, g3, g4, g5, g6, g7⟩ := hw
    refine ⟨g1, g2, g3, g4, ?_, g6, g7⟩
    intro v hv
    injection hv with h2
    rw [← h2]
    exact lt_trans (kdfCK_fst_lt cks) P25519_lt_B64CAP

theorem ratchetDecrypt_WF (s : RatchetState) (h : MessageHeader)
    (nonce : List Nat) (ct : AeadCiphertext) (f : Nat) (pt : String)
    (st : RatchetState) (hok : ratchetDecrypt s h nonce ct f = .ok (pt, st))
    (hw : WFState s) (hdh : fromBase64 h.dh < B64CAP) (hf : f < B64CAP) :
    WFState st := by
  simp only [ratchetDecrypt] at hok
  cases hmg : mapGet s.MKSKIPPED (fromBase64 h.dh, h.n) with
  | some mk =>
    rw [hmg] at hok
    dsimp only at hok
    cases hdec : aeadDecrypt mk nonce (headerJson h) ct with
    | none =>
      rw [hdec] at hok
      exact absurd hok (by intro hx; exact Except.noConfusion hx)
    | some p =>
      rw [hdec] at hok
      have hinj := Except.ok.inj hok
      have hst : st = { s with
          MKSKIPPED := mapDelete s.MKSKIPPED (fromBase64 h.dh, h.n) } :=
        (congrArg Prod.snd hinj).symm
      rw [hst]
      obtain ⟨g1, g2, g3, g4, g5, g6, g7⟩ := hw
      refine ⟨g1, g2, g3, g4, g5, g6, ?_⟩
      intro e he
      exact g7 e (List.mem_filter.mp he).1
  | none =>
    rw [hmg] at hok
    dsimp only at hok
    cases hr : (if s.DHr = some (fromBase64 h.dh) then Except.ok s
                else dhRatchetStep s (fromBase64 h.dh) h.pn f) with
    | error e =>
      rw [hr] at hok
      exact absurd hok (by intro hx; exact Except.noConfusion hx)
    | ok s1 =>
      rw [hr] at hok
      dsimp only at hok
      have hw1 : WFState s1 := by
        by_cases hcond : s.DHr = some (fromBase64 h.dh)
        · rw [if_pos hcond] at hr
          have := Except.ok.inj hr
          rw [← this]
          exact hw
        · rw [if_neg hcond] at hr
          exact dhRatchetStep_WF s (fromBase64 h.dh) h.pn f s1 hr hw hdh hf
      cases hskip : skipMessageKeys s1 h.n with
      | error e =>
        rw [hskip] at hok
        exact absurd hok (by intro hx; exact Except.noConfusion hx)
      | ok s4 =>
        rw [hskip] at hok
        dsimp only at hok
        have hw4 : WFState s4 := skipMessageKeys_WF s1 h.n s4 hskip hw1
        cases hckr : s4.CKr with
        | none =>
          rw [hckr] at hok
          exact absurd hok (by intro hx; exact Except.noConfusion hx)
        | some ckr =>
          rw [hckr] at hok
          dsimp only at hok
          cases hdec : aeadDecrypt (kdfCK ckr).2 nonce (headerJson h) ct with
          | none =>
            rw [hdec] at hok
            exact absurd hok (by intro hx; exact Except.noConfusion hx)
          | some p =>
            rw [hdec] at hok
            have hinj := Except.ok.inj hok
            have hst : st = { s4 with CKr := some (kdfCK ckr).1, Nr := s4.Nr + 1 } :=
              (congrArg Prod.snd hinj).symm
            rw [hst]
            obtain ⟨g1, g2, g3, g4, g5, g6, g7⟩ := hw4
            refine ⟨g1, g2, g3, g4, g5, ?_, g7⟩
            intro v hv
            injection hv with h2
            rw [← h2]
            exact lt_trans (kdfCK_fst_lt ckr) P25519_lt_B64CAP

theorem reachable_WF (s : RatchetState) (h : ReachableState s) : WFState s := by
  induction h with
  | initI ss peerSpk seed hpk hseed =>
    refine ⟨xPubOf_lt_B64CAP seed, hseed, ?_, ?_, ?_, ?_, ?_⟩
    · intro v hv
      injection hv with h2
      rw [← h2]
      exact hpk
    · exact lt_trans (kdfRK_fst_lt _ _) P25519_lt_B64CAP
    · intro v hv
      injection hv with h2
      rw [← h2]
      exact lt_trans (kdfRK_snd_lt _ _) P25519_lt_B64CAP
    · intro v hv
      exact Option.noConfusion hv
    · intro e he
      exact absurd he (List.not_mem_nil e)
  | initR ss kp hss hpub hpriv =>
    refine ⟨hpub, hpriv, ?_, hss, ?_, ?_, ?_⟩
    · intro v hv; exact Option.noConfusion hv
    · intro v hv; exact Option.noConfusion hv
    · intro v hv; exact Option.noConfusion hv
    · intro e he; exact absurd he (List.not_mem_nil e)
  | enc s pt nonce r hreach henc ih =>
    exact ratchetEncrypt_WF s pt nonce r henc ih
  | dec s hd nonce ct seed pt st hreach hdh hf hdec ih =>
    exact ratchetDecrypt_WF s hd nonce ct seed pt st hdec ih hdh hf

theorem optField_roundtrip (o : Option Nat)
    (hb : ∀ v, o = some v → v < B64CAP) :
    Option.map fromBase64 (Option.map toBase64 o) = o := by
  cases o with
  | none => rfl
  | some v =>
    simp only [Option.map_some']
    rw [fromBase64_toBase64 v (hb v rfl)]

theorem skipMap_roundtrip :
    ∀ (l : SkipMap), (∀ e ∈ l, e.2 < B64CAP) →
      (l.map (fun e => (e.1, toBase64 e.2))).map
        (fun e => (e.1, fromBase64 e.2)) = l := by
  intro l
  induction l with
  | nil => intro _; rfl
  | cons e rest ih =>
    intro hb
    simp only [List.map_cons, List.cons.injEq]
    constructor
    · show (e.1, fromBase64 (toBase64 e.2)) = e
      rw [fromBase64_toBase64 e.2 (hb e (List.mem_cons_self e rest))]
    · exact ih (fun q hq => hb q (List.mem_cons_of_mem e hq))

theorem deserialize_serialize (s : RatchetState) (hw : WFState s) :
    deserializeState (serializeState s) = s := by
  obtain ⟨g1, g2, g3, g4, g5, g6, g7⟩ := hw
  unfold serializeState deserializeState
  cases s with
  | mk DHs DHr RK CKs CKr Ns Nr PN MK =>
    cases DHs with
    | mk pub priv =>
      dsimp only at g1 g2 g3 g4 g5 g6 g7 ⊢
      rw [fromBase64_toBase64 pub g1, fromBase64_toBase64 priv g2,
        fromBase64_toBase64 RK g4, optField_roundtrip DHr g3,
        optField_roundtrip CKs g5, optField_roundtrip CKr g6,
        skipMap_roundtrip MK g7]

/-- C6: for every ratchet state reachable through the initiator and
responder constructors, `ratchetEncrypt`, and `ratchetDecrypt`,
deserializing the serialized state restores it exactly — every binary
field, every counter, the nullability of `DHr`/`CKs`/`CKr`, and the full
contents of `MKSKIPPED`. -/
theorem ratchet_state_roundtrip (s : RatchetState) (h : ReachableState s) :
    deserializeState (serializeState s) = s :=
  deserialize_serialize s (reachable_WF s h)

/-- Witness for C6 at a freshly initialized initiator state. -/
theorem ratchet_state_roundtrip_witness :
    deserializeState (serializeState (initInitiator 7 3 5))
      = initInitiator 7 3 5 :=
  ratchet_state_roundtrip (initInitiator 7 3 5)
    (ReachableState.initI 7 3 5 (by decide) (by decide))

/-! ### JSON values and the platform `JSON.parse`

A model of the JavaScript JSON data model and of `JSON.parse` (a platform
builtin): a fueled recursive-descent parser over the character list.
String escapes are not modelled (none of the serialized payloads contain
characters needing escapes); a string containing `"` or `\` fails to
parse, which only makes the modelled parser stricter. -/

inductive Json where
  | null : Json
  | bool (b : Bool) : Json
  | num (n : Nat) : Json
  | str (s : String) : Json
  | arr (xs : List Json) : Json
  | obj (fields : List (String × Json)) : Json

/-- Skip JSON whitespace. -/
def skipWs : List Char → List Char
  | c :: rest =>
    if c = ' ' ∨ c = '\n' ∨ c = '\t' ∨ c = '\r' then skipWs rest else c :: rest
  | [] => []

/-- Parse a string body up to the closing quote (no escapes). -/
def parseStringBody : List Char → Option (String × List Char)
  | [] => none
  | c :: rest =>
    if c = '"' then some ("", rest)
    else if c = '\\' then none
    else (parseStringBody rest).map (fun p => (String.mk (c :: p.1.data), p.2))

/-- Parse a run of decimal digits already begun with accumulator `acc`. -/
def parseDigitsAux : List Char → Nat → Nat × List Char
  | c :: rest, acc =>
    if c.isDigit then parseDigitsAux rest (acc * 10 + (c.toNat - 48))
    else (acc, c :: rest)
  | [], acc => (acc, [])

/-- Parse the comma-separated elements of an array, consuming the `]`. -/
def parseElemsAux (pj : List Char → Option (Json × List Char)) :
    Nat → List Char → Option (List Json × List Char)
  | 0, _ => none
  | fuel + 1, input =>
    match pj input with
    | none => none
    | some (j, rest) =>
      match skipWs rest with
      | ',' :: r2 => (parseElemsAux pj fuel r2).map (fun p => (j :: p.1, p.2))
      | ']' :: r2 => some ([j], r2)
      | _ => none

/-- Parse the comma-separated fields of an object, consuming the `\x7d`. -/
def parseFieldsAux (pj : List Char → Option (Json × List Char)) :
    Nat → List Char → Option (List (String × Json) × List Char)
  | 0, _ => none
  | fuel + 1, input =>
    match skipWs input with
    | '"' :: r1 =>
      match parseStringBody r1 with
      | none => none
      | some (k, r2) =>
        match skipWs r2 with
        | ':' :: r3 =>
          match pj r3 with
          | none => none
          | some (v, r4) =>
            match skipWs r4 with
            | ',' :: r5 =>
              (parseFieldsAux pj fuel r5).map (fun p => ((k, v) :: p.1, p.2))
            | '\x7d' :: r5 => some ([(k, v)], r5)
            | _ => none
        | _ => none
    | _ => none

/-- One JSON value; the fuel bounds nesting depth. -/
def parseJsonAux : Nat → List Char → Option (Json × List Char)
  | 0, _ => none
  | fuel + 1, input =>
    match skipWs input with
    | 'n' :: 'u' :: 'l' :: 'l' :: rest => some (Json.null, rest)
    | 't' :: 'r' :: 'u' :: 'e' :: rest => some (Json.bool true, rest)
    | 'f' :: 'a' :: 'l' :: 's' :: 'e' :: rest => some (Json.bool false, rest)
    | '"' :: rest => (parseStringBody rest).map (fun p => (Json.str p.1, p.2))
    | '[' :: rest =>
      (match skipWs rest with
       | ']' :: r2 => some (Json.arr [], r2)
       | r2 => (parseElemsAux (parseJsonAux fuel) (r2.length + 1) r2).map
           (fun p => (Json.arr p.1, p.2)))
    | '\x7b' :: rest =>
      (match skipWs rest with
       | '\x7d' :: r2 => some (Json.obj [], r2)
       | r2 => (parseFieldsAux (parseJsonAux fuel) (r2.length + 1) r2).map
           (fun p => (Json.obj p.1, p.2)))
    | c :: rest =>
      if c.isDigit then
        let p := parseDigitsAux rest (c.toNat - 48)
        some (Json.num p.1, p.2)
      else none
    | [] => none

/-- Model of `JSON.parse`: `none` models the thrown `SyntaxError`. -/
def parseJson (s : String) : Option Json :=
  match parseJsonAux (s.length + 1) s.data with
  | some (j, rest) => if skipWs rest = [] then some j else none
  | none => none

/-! ### Secure storage and session persistence (`sessionManager.ts`)

`secureStorage` is modelled as an association list of string keys to
string values; `secureGet` returns `none` for an absent key. -/

abbrev Storage := List (String × String)

/-- `secureGet`. -/
def storageGet (st : Storage) (k : String) : Option String :=
  (st.find? (fun e => e.1 == k)).map (fun e => e.2)

/-- `secureSet`. -/
def storageSet (st : Storage) (k v : String) : Storage :=
  if st.any (fun e => e.1 == k) then
    st.map (fun e => if e.1 == k then (k, v) else e)
  else st ++ [(k, v)]

/-- `secureDelete`. -/
def storageDelete (st : Storage) (k : String) : Storage :=
  st.filter (fun e => !(e.1 == k))

/-- `SESSION_PREFIX` (`sessionManager.ts`). -/
def sessionTag : String := "signal:session:"

/-- `PREKEY_STORE_KEY` (`sessionManager.ts`). -/
def prekeyStoreKey : String := "signal:prekeys"

/-- Lexicographic string comparison by code units (the default JS
`Array.sort` comparator on strings). -/
def strLeb : List Char → List Char → Bool
  | [], _ => true
  | _ :: _, [] => false
  | a :: as, b :: bs =>
    if a.toNat < b.toNat then true
    else if b.toNat < a.toNat then false
    else strLeb as bs

/-- `sessionKey` (`sessionManager.ts`): deterministic ordering so both
sides derive the same storage key. -/
def sessionKeyOf (myPubHex peerPubHex : String) : String :=
  if strLeb myPubHex.data peerPubHex.data then
    sessionTag ++ myPubHex ++ ":" ++ peerPubHex
  else sessionTag ++ peerPubHex ++ ":" ++ myPubHex

/-- The value of a lowercase hex digit character. -/
def hexVal (c : Char) : Nat := if c.toNat ≤ 57 then c.toNat - 48 else c.toNat - 87

/-- Modelled from the spec: `hexToBytes`, inverse of `bytesToHex` on
64-hex-digit strings (little-endian digit order, mirroring `fromBase64`). -/
def fromHex (s : String) : Nat :=
  s.data.foldr (fun c acc => hexVal c + 16 * acc) 0

/-- Fallible base64 decoding: `fromBase64` throws on a character outside
the alphabet. -/
def parseB64 (s : String) : Option Nat :=
  if s.data.all (fun c => b64Alphabet.contains c) then some (fromBase64 s)
  else none

/-- Parse a `MKSKIPPED` record key of the form `<dhHex>:<n>` back into the
structured key modelling it. -/
def parseSkipKey (k : String) : Option (Nat × Nat) :=
  match k.data.splitOn ':' with
  | [dhCs, nCs] =>
    if dhCs.all (fun c => hexAlphabet.contains c) ∧ nCs ≠ [] ∧
        nCs.all Char.isDigit then
      some (fromHex (String.mk dhCs), (parseDigitsAux nCs 0).1)
    else none
  | _ => none

/-- Field lookup on a parsed JSON object. -/
def jLookup (fields : List (String × Json)) (name : String) : Option Json :=
  (fields.find? (fun f => f.1 == name)).map (fun f => f.2)

/-- A field that must be a JSON string. -/
def jString : Option Json → Option String
  | some (.str s) => some s
  | _ => none

/-- A field that must be a JSON number. -/
def jNat : Option Json → Option Nat
  | some (.num n) => some n
  | _ => none

/-- A nullable binary field: `null` or a missing field is falsy and maps
to `none`; a string is decoded; any other value makes `fromBase64` throw. -/
def jNullableB64 : Option Json → Option (Option Nat)
  | some (.str s) => (parseB64 s).map some
  | some .null => some none
  | none => some none
  | _ => none

/-- Decode the entries of the serialized `MKSKIPPED` record. -/
def decodeSkipEntries : List (String × Json) → Option SkipMap
  | [] => some []
  | (k, v) :: rest =>
    match parseSkipKey k, v with
    | some key, .str s =>
      match parseB64 s, decodeSkipEntries rest with
      | some mk, some tail => some ((key, mk) :: tail)
      | _, _ => none
    | _, _ => none

/-- `deserializeState` applied to an untyped `JSON.parse` result: `none`
models every path on which the original would throw (absent or non-string
required field, invalid base64). -/
def decodeStateJson (j : Json) : Option RatchetState :=
  match j with
  | .obj fields => do
    let dhsPub ← (jString (jLookup fields "DHs_pub")).bind parseB64
    let dhsPriv ← (jString (jLookup fields "DHs_priv")).bind parseB64
    let rk ← (jString (jLookup fields "RK")).bind parseB64
    let dhr ← jNullableB64 (jLookup fields "DHr")
    let cks ← jNullableB64 (jLookup fields "CKs")
    let ckr ← jNullableB64 (jLookup fields "CKr")
    let ns ← jNat (jLookup fields "Ns")
    let nr ← jNat (jLookup fields "Nr")
    let pn ← jNat (jLookup fields "PN")
    let mkS ← (match jLookup fields "MKSKIPPED" with
      | some (.obj entries) => decodeSkipEntries entries
      | _ => none)
    pure { DHs := { publicKey := dhsPub, privateKey := dhsPriv }, DHr := dhr,
           RK := rk, CKs := cks, CKr := ckr, Ns := ns, Nr := nr, PN := pn,
           MKSKIPPED := mkS }
  | _ => none

/-- `deserializeState(JSON.parse(raw))` with every throw modelled as `none`. -/
def decodeStateRaw (raw : String) : Option RatchetState :=
  (parseJson raw).bind decodeStateJson

/-- `loadSession` (`sessionManager.ts`): absent key, unparseable JSON and
failing deserialization all yield `none` (the `try/catch`). -/
def loadSession (st : Storage) (myPubHex peerPubHex : String) :
    Option RatchetState :=
  match storageGet st (sessionKeyOf myPubHex peerPubHex) with
  | none => none
  | some raw => decodeStateRaw raw

/-- JSON string literal (no escapes needed for the serialized payloads). -/
def jstr (s : String) : String := "\"" ++ s ++ "\""

/-- One `"name":value` JSON object field. -/
def jfield (name val : String) : String := jstr name ++ ":" ++ val

/-- A nullable string field value. -/
def jNullStr : Option String → String
  | some s => jstr s
  | none => "null"

/-- The serialized `MKSKIPPED` record's fields: keys are `<dhHex>:<n>`. -/
def printSkipEntries (l : List ((Nat × Nat) × String)) : String :=
  String.intercalate ","
    (l.map (fun e =>
      jfield (bytesToHex e.1.1 ++ ":" ++ natStr e.1.2) (jstr e.2)))

/-- Model of `JSON.stringify` on a `SerializedRatchetState`. -/
def printSerializedState (s : SerializedRatchetState) : String :=
  "\x7b" ++ jfield "DHs_pub" (jstr s.DHs_pub)
    ++ "," ++ jfield "DHs_priv" (jstr s.DHs_priv)
    ++ "," ++ jfield "DHr" (jNullStr s.DHr)
    ++ "," ++ jfield "RK" (jstr s.RK)
    ++ "," ++ jfield "CKs" (jNullStr s.CKs)
    ++ "," ++ jfield "CKr" (jNullStr s.CKr)
    ++ "," ++ jfield "Ns" (natStr s.Ns)
    ++ "," ++ jfield "Nr" (natStr s.Nr)
    ++ "," ++ jfield "PN" (natStr s.PN)
    ++ "," ++ jfield "MKSKIPPED" ("\x7b" ++ printSkipEntries s.MKSKIPPED ++ "\x7d")
    ++ "\x7d"

/-- `saveSession` (`sessionManager.ts`). -/
def saveSession (st : Storage) (myPubHex peerPubHex : String)
    (state : RatchetState) : Storage :=
  storageSet st (sessionKeyOf myPubHex peerPubHex)
    (printSerializedState (serializeState state))

/-- `deleteSession` (`sessionManager.ts`). -/
def deleteSession (st : Storage) (myPubHex peerPubHex : String) : Storage :=
  storageDelete st (sessionKeyOf myPubHex peerPubHex)

/-- `SerializedLocalPrekeyStore` (`types.ts`). -/
structure SerializedOPKEntry where
  id : Nat
  publicKey : String
  privateKey : String
deriving DecidableEq, Repr

/-- Serialized signed prekey. -/
structure SerializedSignedPrekey where
  id : Nat
  publicKey : String
  privateKey : String
  createdAt : Nat
deriving DecidableEq, Repr

/-- Serialized local prekey store. -/
structure SerializedLocalPrekeyStore where
  signedPrekey : SerializedSignedPrekey
  oneTimePrekeys : List SerializedOPKEntry
  nextOPKId : Nat
deriving DecidableEq, Repr

/-- `serializePrekeyStore` (`sessionManager.ts`). -/
def serializePrekeyStore (store : LocalPrekeyStore) :
    SerializedLocalPrekeyStore :=
  { signedPrekey :=
      { id := store.signedPrekey.id,
        publicKey := toBase64 store.signedPrekey.publicKey,
        privateKey := toBase64 store.signedPrekey.privateKey,
        createdAt := store.signedPrekey.createdAt },
    oneTimePrekeys := store.oneTimePrekeys.map (fun k =>
      { id := k.id, publicKey := toBase64 k.publicKey,
        privateKey := toBase64 k.privateKey }),
    nextOPKId := store.nextOPKId }

/-- One serialized one-time prekey as a JSON object. -/
def printOPKEntry (k : SerializedOPKEntry) : String :=
  "\x7b" ++ jfield "id" (natStr k.id)
    ++ "," ++ jfield "publicKey" (jstr k.publicKey)
    ++ "," ++ jfield "privateKey" (jstr k.privateKey) ++ "\x7d"

/-- Model of `JSON.stringify` on a `SerializedLocalPrekeyStore`. -/
def printPrekeyStore (s : SerializedLocalPrekeyStore) : String :=
  "\x7b" ++ jfield "signedPrekey"
      ("\x7b" ++ jfield "id" (natStr s.signedPrekey.id)
        ++ "," ++ jfield "publicKey" (jstr s.signedPrekey.publicKey)
        ++ "," ++ jfield "privateKey" (jstr s.signedPrekey.privateKey)
        ++ "," ++ jfield "createdAt" (natStr s.signedPrekey.createdAt)
        ++ "\x7d")
    ++ "," ++ jfield "oneTimePrekeys"
      ("[" ++ String.intercalate "," (s.oneTimePrekeys.map printOPKEntry) ++ "]")
    ++ "," ++ jfield "nextOPKId" (natStr s.nextOPKId) ++ "\x7d"

/-- Decode one serialized one-time prekey. -/
def decodeOPKJson : Json → Option OPKEntry
  | .obj fields => do
    let i ← jNat (jLookup fields "id")
    let pubk ← (jString (jLookup fields "publicKey")).bind parseB64
    let privk ← (jString (jLookup fields "privateKey")).bind parseB64
    pure { id := i, publicKey := pubk, privateKey := privk }
  | _ => none

/-- Decode a list of serialized one-time prekeys. -/
def decodeOPKList : List Json → Option (List OPKEntry)
  | [] => some []
  | j :: rest =>
    match decodeOPKJson j, decodeOPKList rest with
    | some k, some tail => some (k :: tail)
    | _, _ => none

/-- `deserializePrekeyStore` applied to an untyped `JSON.parse` result. -/
def decodePrekeyJson (j : Json) : Option LocalPrekeyStore :=
  match j with
  | .obj fields => do
    let spkJ ← (match jLookup fields "signedPrekey" with
      | some (.obj spkFields) => some spkFields
      | _ => none)
    let spkId ← jNat (jLookup spkJ "id")
    let spkPub ← (jString (jLookup spkJ "publicKey")).bind parseB64
    let spkPriv ← (jString (jLookup spkJ "privateKey")).bind parseB64
    let created ← jNat (jLookup spkJ "createdAt")
    let opks ← (match jLookup fields "oneTimePrekeys" with
      | some (.arr xs) => decodeOPKList xs
      | _ => none)
    let nxt ← jNat (jLookup fields "nextOPKId")
    pure { signedPrekey := { id := spkId, publicKey := spkPub, privateKey := spkPriv, createdAt := created },
           oneTimePrekeys := opks, nextOPKId := nxt }
  | _ => none

/-- `deserializePrekeyStore(JSON.parse(raw))` with throws as `none`. -/
def decodePrekeyRaw (raw : String) : Option LocalPrekeyStore :=
  (parseJson raw).bind decodePrekeyJson

/-- `loadPrekeyStore` (`sessionManager.ts`). -/
def loadPrekeyStore (st : Storage) : Option LocalPrekeyStore :=
  match storageGet st prekeyStoreKey with
  | none => none
  | some raw => decodePrekeyRaw raw

/-- `savePrekeyStore` (`sessionManager.ts`). -/
def savePrekeyStore (st : Storage) (store : LocalPrekeyStore) : Storage :=
  storageSet st prekeyStoreKey (printPrekeyStore (serializePrekeyStore store))

/-- C10: the loaders swallow every failure into `null`. An absent key, a
stored string rejected by `JSON.parse`, and a parsed value on which
deserialization fails all make `loadSession` / `loadPrekeyStore` return
`none` — the functions are total, so a corrupted persisted record is
indistinguishable from an absent one at the interface. -/
theorem load_corrupted_returns_null :
    (∀ (st : Storage) (a b : String),
      (storageGet st (sessionKeyOf a b) = none → loadSession st a b = none) ∧
      (∀ raw, storageGet st (sessionKeyOf a b) = some raw →
        parseJson raw = none → loadSession st a b = none) ∧
      (∀ raw j, storageGet st (sessionKeyOf a b) = some raw →
        parseJson raw = some j → decodeStateJson j = none →
        loadSession st a b = none)) ∧
    (∀ (st : Storage),
      (storageGet st prekeyStoreKey = none → loadPrekeyStore st = none) ∧
      (∀ raw, storageGet st prekeyStoreKey = some raw →
        parseJson raw = none → loadPrekeyStore st = none) ∧
      (∀ raw j, storageGet st prekeyStoreKey = some raw →
        parseJson raw = some j → decodePrekeyJson j = none →
        loadPrekeyStore st = none)) := by
  constructor
  · intro st a b
    refine ⟨?_, ?_, ?_⟩
    · intro h
      unfold loadSession
      rw [h]
    · intro raw hraw hp
      unfold loadSession
      rw [hraw]
      show (parseJson raw).bind decodeStateJson = none
      rw [hp]
      rfl
    · intro raw j hraw hp hd
      unfold loadSession
      rw [hraw]
      show (parseJson raw).bind decodeStateJson = none
      rw [hp]
      exact hd
  · intro st
    refine ⟨?_, ?_, ?_⟩
    · intro h
      unfold loadPrekeyStore
      rw [h]
    · intro raw hraw hp
      unfold loadPrekeyStore
      rw [hraw]
      show (parseJson raw).bind decodePrekeyJson = none
      rw [hp]
      rfl
    · intro raw j hraw hp hd
      unfold loadPrekeyStore
      rw [hraw]
      show (parseJson raw).bind decodePrekeyJson = none
      rw [hp]
      exact hd

/-- Witness for C10: a stored record that is not JSON, and one that is
JSON of the wrong shape, both load as `null`; so does an absent key. -/
theorem load_corrupted_returns_null_witness :
    loadSession [(sessionKeyOf "aa" "bb", "notjson")] "aa" "bb" = none :=
  (load_corrupted_returns_null.1 [(sessionKeyOf "aa" "bb", "notjson")] "aa" "bb").2.1
    "notjson" (by rfl) (by rfl)

/-! ### DM envelope router (`dmE2ee.ts`) -/

/-- `DM_E2EE_V1` / `DM_E2EE_V2` / `AES_GCM_NONCE_BYTES` (`dmE2ee.ts`). -/
def AES_GCM_NONCE_BYTES : Nat := 12

/-- Everything `decryptDmMessage` can throw. -/
inductive DmErr where
  | unsupportedVersion (v : Nat)
  | invalidNonce
  | v1DecryptFailed
  | badHeader
  | noPrekeyStore
  | noSession
  | ratchetErr (e : RatchetError)
deriving DecidableEq, Repr

/-- The wire envelope (`MessageE2eePayload`, `types.ts`, spec §6): the
`nonce` and `ciphertext` fields are carried as their decoded bytes. -/
structure MessageE2eePayload where
  version : Nat
  nonce : List Nat
  ciphertext : AeadCiphertext
  header : Option String := none
deriving DecidableEq, Repr

/-- JS truthiness of an optional string field: absent, `null` and the
empty string are falsy. -/
def isTruthyStr (o : Option String) : Bool := !(o.getD "" == "")

/-- Deterministic model of hashing a UTF-8 context string. -/
def strHash (s : String) : Nat := s.data.foldl (fun a c => a * 131 + c.toNat) 7

/-- `deriveConversationKeyMaterial` + `deriveConversationKey` (`dmE2ee.ts`):
static ECDH between the converted identity keys, HKDF-bound to the
`paracord:dm-e2ee:v1:<channelId>` context. -/
def deriveConversationKey (channelId : String) (myPrivEd : Nat)
    (peerPubEdHex : String) : Nat :=
  let myX := ed25519PrivateToX25519 myPrivEd
  let peerX := ed25519PublicToX25519 (fromHex peerPubEdHex)
  let shared := dhShared myX peerX
  (shared * 1013 + strHash ("paracord:dm-e2ee:v1:" ++ channelId)) % P25519

/-- `decryptV1` (`dmE2ee.ts`): the legacy static-ECDH AEAD path. -/
def decryptV1 (channelId : String) (payload : MessageE2eePayload)
    (myPrivEd : Nat) (peerPubEdHex : String) : Except DmErr String :=
  let key := deriveConversationKey channelId myPrivEd peerPubEdHex
  if payload.nonce.length ≠ AES_GCM_NONCE_BYTES then .error .invalidNonce
  else
    match aeadDecrypt key payload.nonce "" payload.ciphertext with
    | some pt => .ok pt
    | none => .error .v1DecryptFailed

/-- `getMyPublicKeyHex` (`dmE2ee.ts`). -/
def getMyPublicKeyHex (myPrivEd : Nat) : String := bytesToHex (edPubOf myPrivEd)

/-- An optional string header field: absent and `null` decode to `none`. -/
def jOptStr : Option Json → Option (Option String)
  | some (.str s) => some (some s)
  | some .null => some none
  | none => some none
  | _ => none

/-- An optional numeric header field. -/
def jOptNat : Option Json → Option (Option Nat)
  | some (.num n) => some (some n)
  | some .null => some none
  | none => some none
  | _ => none

/-- The typed read of `JSON.parse(payload.header)` as a `MessageHeader`. -/
def decodeHeaderJson (j : Json) : Option MessageHeader :=
  match j with
  | .obj fields => do
    let dh ← jString (jLookup fields "dh")
    let pn ← jNat (jLookup fields "pn")
    let n ← jNat (jLookup fields "n")
    let ik ← jOptStr (jLookup fields "ik")
    let ek ← jOptStr (jLookup fields "ek")
    let oid ← jOptNat (jLookup fields "opk_id")
    pure { dh := dh, pn := pn, n := n, ik := ik, ek := ek, opk_id := oid }
  | _ => none

/-- `JSON.parse` of the header string, typed. -/
def parseHeaderStr (s : String) : Option MessageHeader :=
  (parseJson s).bind decodeHeaderJson

/-- The responder bootstrap of `decryptDmMessage`: optionally consume the
OPK named by the header, run `x3dhRespond`, initialize a responder session
from the signed prekey pair.  Returns (session, updated store, whether an
OPK was consumed). -/
def responderBootstrap (prekeyStore : LocalPrekeyStore)
    (header : MessageHeader) (myPrivEd : Nat) :
    RatchetState × LocalPrekeyStore × Bool :=
  let consumed := match header.opk_id with
    | some oid => consumeLocalOPK prekeyStore oid
    | none => none
  let opkPrivate := consumed.map Prod.fst
  let updatedStore := (consumed.map (fun c => c.2)).getD prekeyStore
  let sharedSecret := x3dhRespond myPrivEd prekeyStore.signedPrekey.privateKey
    opkPrivate (fromBase64 (header.ik.getD "")) (fromBase64 (header.ek.getD ""))
  (initResponder sharedSecret
    { publicKey := prekeyStore.signedPrekey.publicKey,
      privateKey := prekeyStore.signedPrekey.privateKey },
   updatedStore, consumed.isSome)

/-- The common `try ratchetDecrypt / catch` tail of `decryptDmMessage`:
save the new state on success; on failure with an X3DH header, delete the
session, re-bootstrap from the (possibly already updated) prekey store and
retry once. -/
def decryptV2Core (storage : Storage) (myPubHex peerPubEdHex : String)
    (myPrivEd : Nat) (header : MessageHeader) (payload : MessageE2eePayload)
    (session : RatchetState) (seed1 seed2 : Nat) :
    Except DmErr String × Storage :=
  match ratchetDecrypt session header payload.nonce payload.ciphertext seed1 with
  | .ok r => (.ok r.1, saveSession storage myPubHex peerPubEdHex r.2)
  | .error err =>
    if isTruthyStr header.ik && isTruthyStr header.ek then
      let storage1 := deleteSession storage myPubHex peerPubEdHex
      match loadPrekeyStore storage1 with
      | none => (.error (.ratchetErr err), storage1)
      | some prekeyStore =>
        let b := responderBootstrap prekeyStore header myPrivEd
        match ratchetDecrypt b.1 header payload.nonce payload.ciphertext seed2 with
        | .ok r =>
          let storage2 := saveSession storage1 myPubHex peerPubEdHex r.2
          (.ok r.1, if b.2.2 then savePrekeyStore storage2 b.2.1 else storage2)
        | .error err2 => (.error (.ratchetErr err2), storage1)
    else (.error (.ratchetErr err), storage)

/-- The v2 Signal path of `decryptDmMessage` after version routing. -/
def decryptV2Session (storage : Storage) (payload : MessageE2eePayload)
    (myPrivEd : Nat) (peerPubEdHex : String) (seed1 seed2 : Nat) :
    Except DmErr String × Storage :=
  match parseHeaderStr (payload.header.getD "") with
  | none => (.error .badHeader, storage)
  | some header =>
    let myPubHex := getMyPublicKeyHex myPrivEd
    match loadSession storage myPubHex peerPubEdHex with
    | some session =>
      decryptV2Core storage myPubHex peerPubEdHex myPrivEd header payload
        session seed1 seed2
    | none =>
      if isTruthyStr header.ik && isTruthyStr header.ek then
        match loadPrekeyStore storage with
        | none => (.error .noPrekeyStore, storage)
        | some prekeyStore =>
          let b := responderBootstrap prekeyStore header myPrivEd
          let storage1 := if b.2.2 then savePrekeyStore storage b.2.1 else storage
          decryptV2Core storage1 myPubHex peerPubEdHex myPrivEd header payload
            b.1 seed1 seed2
      else (.error .noSession, storage)

/-- `decryptDmMessage` (`dmE2ee.ts`): version routing, then the v1 or v2
path; the two fresh DH seeds stand for the randomness of the (at most two)
ratchet decrypt attempts; the storage is threaded explicitly. -/
def decryptDmMessage (storage : Storage) (channelId : String)
    (payload : MessageE2eePayload) (myPrivEd : Nat) (peerPubEdHex : String)
    (seed1 seed2 : Nat) : Except DmErr String × Storage :=
  if payload.version = 1 ∨ isTruthyStr payload.header = false then
    (decryptV1 channelId payload myPrivEd peerPubEdHex, storage)
  else if payload.version ≠ 2 then
    (.error (.unsupportedVersion payload.version), storage)
  else
    decryptV2Session storage payload myPrivEd peerPubEdHex seed1 seed2

theorem decryptV1_no_uv (channelId : String) (payload : MessageE2eePayload)
    (myPrivEd : Nat) (peerPubEdHex : String) (v : Nat) :
    decryptV1 channelId payload myPrivEd peerPubEdHex
      ≠ .error (.unsupportedVersion v) := by
  unfold decryptV1
  by_cases hn : payload.nonce.length ≠ AES_GCM_NONCE_BYTES
  · rw [if_pos hn]
    intro h
    exact DmErr.noConfusion (Except.error.inj h)
  · rw [if_neg hn]
    cases hd : aeadDecrypt (deriveConversationKey channelId myPrivEd peerPubEdHex)
        payload.nonce "" payload.ciphertext with
    | some pt =>
      intro h
      exact Except.noConfusion h
    | none =>
      intro h
      exact DmErr.noConfusion (Except.error.inj h)

theorem decryptV2Core_no_uv (storage : Storage) (myPubHex peerPubEdHex : String)
    (myPrivEd : Nat) (header : MessageHeader) (payload : MessageE2eePayload)
    (session : RatchetState) (seed1 seed2 : Nat) (v : Nat) :
    (decryptV2Core storage myPubHex peerPubEdHex myPrivEd header payload
        session seed1 seed2).1 ≠ .error (.unsupportedVersion v) := by
  unfold decryptV2Core
  cases h1 : ratchetDecrypt session header payload.nonce payload.ciphertext seed1 with
  | ok r =>
    intro h
    exact Except.noConfusion h
  | error err =>
    dsimp only
    by_cases hc : isTruthyStr header.ik && isTruthyStr header.ek
    · rw [if_pos hc]
      cases h2 : loadPrekeyStore (deleteSession storage myPubHex peerPubEdHex) with
      | none =>
        intro h
        exact DmErr.noConfusion (Except.error.inj h)
      | some prekeyStore =>
        dsimp only
        cases h3 : ratchetDecrypt
            (responderBootstrap prekeyStore header myPrivEd).1 header
            payload.nonce payload.ciphertext seed2 with
        | ok r =>
          intro h
          exact Except.noConfusion h
        | error err2 =>
          intro h
          exact DmErr.noConfusion (Except.error.inj h)
    · rw [if_neg hc]
      intro h
      exact DmErr.noConfusion (Except.error.inj h)

theorem decryptV2Session_no_uv (storage : Storage)
    (payload : MessageE2eePayload) (myPrivEd : Nat) (peerPubEdHex : String)
    (seed1 seed2 : Nat) (v : Nat) :
    (decryptV2Session storage payload myPrivEd peerPubEdHex seed1 seed2).1
      ≠ .error (.unsupportedVersion v) := by
  unfold decryptV2Session
  cases hp : parseHeaderStr (payload.header.getD "") with
  | none =>
    intro h
    exact DmErr.noConfusion (Except.error.inj h)
  | some header =>
    dsimp only
    cases hs : loadSession storage (getMyPublicKeyHex myPrivEd) peerPubEdHex with
    | some session => exact decryptV2Core_no_uv _ _ _ _ _ _ _ _ _ v
    | none =>
      dsimp only
      by_cases hc : isTruthyStr header.ik && isTruthyStr header.ek
      · rw [if_pos hc]
        cases h2 : loadPrekeyStore storage with
        | none =>
          intro h
          exact DmErr.noConfusion (Except.error.inj h)
        | some prekeyStore =>
          dsimp only
          exact decryptV2Core_no_uv _ _ _ _ _ _ _ _ _ v
      · rw [if_neg hc]
        intro h
        exact DmErr.noConfusion (Except.error.inj h)

/-- C5 (amended): `decryptDmMessage` raises `UnsupportedVersion` exactly
when the version is neither 1 nor 2 AND the header field is truthy: a
payload with version outside \x7b1, 2\x7d but no (or an empty) header is
routed to the v1 path instead, and versions 1 and 2 never raise
`UnsupportedVersion`. -/
theorem dm_unsupported_version_routing (storage : Storage)
    (channelId : String) (payload : MessageE2eePayload) (myPrivEd : Nat)
    (peerPubEdHex : String) (seed1 seed2 : Nat) :
    (∃ v, (decryptDmMessage storage channelId payload myPrivEd peerPubEdHex
        seed1 seed2).1 = .error (.unsupportedVersion v))
      ↔ (payload.version ≠ 1 ∧ payload.version ≠ 2 ∧
         isTruthyStr payload.header = true) := by
  unfold decryptDmMessage
  by_cases h1 : payload.version = 1 ∨ isTruthyStr payload.header = false
  · rw [if_pos h1]
    constructor
    · rintro ⟨v, hv⟩
      exact absurd hv (decryptV1_no_uv channelId payload myPrivEd peerPubEdHex v)
    · rintro ⟨hv1, hv2, hv3⟩
      rcases h1 with h | h
      · exact absurd h hv1
      · rw [hv3] at h
        exact Bool.noConfusion h
  · rw [if_neg h1]
    have h1' := not_or.mp h1
    have hver1 : payload.version ≠ 1 := h1'.1
    have htr : isTruthyStr payload.header = true :=
      Bool.eq_true_of_ne_false h1'.2
    by_cases h2 : payload.version = 2
    · rw [if_neg (not_not_intro h2)]
      constructor
      · rintro ⟨v, hv⟩
        exact absurd hv
          (decryptV2Session_no_uv storage payload myPrivEd peerPubEdHex
            seed1 seed2 v)
      · rintro ⟨hv1, hv2, hv3⟩
        exact absurd h2 hv2
    · rw [if_pos h2]
      constructor
      · intro _
        exact ⟨hver1, h2, htr⟩
      · intro _
        exact ⟨payload.version, rfl⟩

/-- A concrete undummy ciphertext value for the counterexample payload. -/
def c5ct : AeadCiphertext := { body := [1, 2], tag := (0, [], "", []) }

/-- Counterexample to C5 as stated: a payload with version 3 and no header
does not raise `UnsupportedVersion` — it is routed to the v1 path and (for
this payload) fails with the invalid-nonce error instead. -/
theorem dm_version_counterexample :
    (decryptDmMessage [] "c" { version := 3, nonce := [], ciphertext := c5ct }
        1 "ab" 5 6).1 = .error .invalidNonce := rfl

/-! ### C9: no mutation of the argument state (heap model)

JavaScript objects and `Map`s are references into a heap.  `RHeap` models
it: ratchet-state objects hold an index into the map store instead of the
map itself, spreads (`\x7b...state\x7d`) allocate new objects, `new Map(m)`
allocates a copy, and the in-place field assignments of `ratchetDecrypt` /
`skipMessageKeys` are modelled as writes to the heap at the written
object's index. -/

/-- A ratchet-state object on the heap: `MKSKIPPED` is a map reference. -/
structure RObj where
  DHs : X25519KeyPair
  DHr : Option Nat
  RK : Nat
  CKs : Option Nat
  CKr : Option Nat
  Ns : Nat
  Nr : Nat
  PN : Nat
  mkskippedRef : Nat
deriving DecidableEq, Repr

instance : Inhabited RObj :=
  ⟨{ DHs := { publicKey := 0, privateKey := 0 }, DHr := none, RK := 0,
     CKs := none, CKr := none, Ns := 0, Nr := 0, PN := 0, mkskippedRef := 0 }⟩

/-- The heap: object store and `Map` store. -/
structure RHeap where
  objs : List RObj
  maps : List SkipMap
deriving DecidableEq, Repr

def RHeap.getObj (h : RHeap) (r : Nat) : RObj := h.objs.getD r default

def RHeap.getMap (h : RHeap) (r : Nat) : SkipMap := h.maps.getD r []

def RHeap.setObj (h : RHeap) (r : Nat) (o : RObj) : RHeap :=
  { h with objs := h.objs.set r o }

def RHeap.setMap (h : RHeap) (r : Nat) (m : SkipMap) : RHeap :=
  { h with maps := h.maps.set r m }

def RHeap.allocObj (h : RHeap) (o : RObj) : RHeap × Nat :=
  ({ h with objs := h.objs ++ [o] }, h.objs.length)

def RHeap.allocMap (h : RHeap) (m : SkipMap) : RHeap × Nat :=
  ({ h with maps := h.maps ++ [m] }, h.maps.length)

/-- `ratchetEncrypt` on the heap: `\x7b...state, CKs, Ns\x7d` allocates the
new state object (sharing the argument's map reference); the argument
object is never written. -/
def ratchetEncryptImp (h : RHeap) (r : Nat) (plaintext : String)
    (nonce : List Nat) :
    Except RatchetError (MessageHeader × List Nat × AeadCiphertext × Nat) × RHeap :=
  let st := h.getObj r
  match st.CKs with
  | none => (.error .sendingChainNotInitialized, h)
  | some cks =>
    let kd := kdfCK cks
    let alloc := h.allocObj { st with CKs := some kd.1, Ns := st.Ns + 1 }
    let header : MessageHeader :=
      { dh := toBase64 st.DHs.publicKey, pn := st.PN, n := st.Ns }
    (.ok (header, nonce, aeadEncrypt kd.2 nonce (headerJson header) plaintext,
      alloc.2), alloc.1)

/-- `skipMessageKeys` on the heap: the early return hands back the same
reference; the main path allocates the map copy (`new Map(...)`, with the
loop's writes landing in the copy) and the result object (`\x7b...state\x7d`). -/
def skipMessageKeysImp (h : RHeap) (r : Nat) (untilN : Nat) :
    Except RatchetError Nat × RHeap :=
  let st := h.getObj r
  match st.CKr, st.DHr with
  | some ckr, some dhr =>
    if st.Nr + MAX_SKIP < untilN then (.error .tooManySkipped, h)
    else
      let res := skipLoop ckr dhr (h.getMap st.mkskippedRef) st.Nr untilN
      let am := h.allocMap res.2.2
      let ao := am.1.allocObj
        { st with CKr := some res.1, Nr := res.2.1, mkskippedRef := am.2 }
      (.ok ao.2, ao.1)
  | _, _ => (.ok r, h)

/-- The DH-ratchet step of `ratchetDecrypt` on the heap: the field
assignments write to `r0` (the fresh working copy) or to the fresh object
`skipMessageKeys` returned. -/
def dhRatchetStepImp (h : RHeap) (r0 : Nat) (headerDhPub pn freshSeed : Nat) :
    Except RatchetError Nat × RHeap :=
  match (if (h.getObj r0).CKr ≠ none ∧ (h.getObj r0).DHr ≠ none
         then skipMessageKeysImp h r0 pn else (.ok r0, h)) with
  | (.error e, h1) => (.error e, h1)
  | (.ok r1, h1) =>
    let s1 := h1.getObj r1
    let h2 := h1.setObj r1
      { s1 with PN := s1.Ns, Ns := 0, Nr := 0, DHr := some headerDhPub }
    let s2 := h2.getObj r1
    let k1 := kdfRK s2.RK (dhShared s2.DHs.privateKey headerDhPub)
    let h3 := h2.setObj r1 { s2 with RK := k1.1, CKr := some k1.2 }
    let s3 := h3.getObj r1
    let dhsNew := generateX25519KeyPair freshSeed
    let k2 := kdfRK s3.RK (dhShared dhsNew.privateKey headerDhPub)
    let h4 := h3.setObj r1 { s3 with DHs := dhsNew, RK := k2.1, CKs := some k2.2 }
    (.ok r1, h4)

/-- Steps 2-5 of `ratchetDecrypt` on the heap, already holding the fresh
working copy `r0` of the argument state. -/
def ratchetDecryptImpMain (h2 : RHeap) (r0 : Nat) (header : MessageHeader)
    (nonce : List Nat) (ct : AeadCiphertext) (freshSeed headerDhPub : Nat) :
    Except RatchetError (String × Nat) × RHeap :=
  match (if (h2.getObj r0).DHr = some headerDhPub then (.ok r0, h2)
         else dhRatchetStepImp h2 r0 headerDhPub header.pn freshSeed) with
  | (.error e, h3) => (.error e, h3)
  | (.ok r1, h3) =>
    match skipMessageKeysImp h3 r1 header.n with
    | (.error e, h4) => (.error e, h4)
    | (.ok r2, h4) =>
      let s4 := h4.getObj r2
      match s4.CKr with
      | none => (.error .receivingChainNotInitialized, h4)
      | some ckr =>
        let kd := kdfCK ckr
        let h5 := h4.setObj r2 { s4 with CKr := some kd.1, Nr := s4.Nr + 1 }
        match aeadDecrypt kd.2 nonce (headerJson header) ct with
        | some pt => (.ok (pt, r2), h5)
        | none => (.error .decryptFailed, h5)

/-- `ratchetDecrypt` on the heap: the skipped-key path allocates the map
copy and (on success) the result object; the main path first allocates the
working copy `\x7b...state, MKSKIPPED: new Map(...)\x7d` and mutates only it. -/
def ratchetDecryptImp (h : RHeap) (r : Nat) (header : MessageHeader)
    (nonce : List Nat) (ct : AeadCiphertext) (freshSeed : Nat) :
    Except RatchetError (String × Nat) × RHeap :=
  let st := h.getObj r
  let headerDhPub := fromBase64 header.dh
  let skipKey := (headerDhPub, header.n)
  match mapGet (h.getMap st.mkskippedRef) skipKey with
  | some skippedMk =>
    let am := h.allocMap (mapDelete (h.getMap st.mkskippedRef) skipKey)
    match aeadDecrypt skippedMk nonce (headerJson header) ct with
    | some pt =>
      let ao := am.1.allocObj { st with mkskippedRef := am.2 }
      (.ok (pt, ao.2), ao.1)
    | none => (.error .decryptFailed, am.1)
  | none =>
    let am0 := h.allocMap (h.getMap st.mkskippedRef)
    let ao0 := am0.1.allocObj { st with mkskippedRef := am0.2 }
    ratchetDecryptImpMain ao0.1 ao0.2 header nonce ct freshSeed headerDhPub

theorem getD_set_ne {α : Type} (l : List α) (i j : Nat) (v d : α)
    (hij : i ≠ j) : (l.set i v).getD j d = l.getD j d := by
  unfold List.getD
  rw [List.get?_set_ne v l hij]

/-- Heap evolution that leaves every object below `no` and every map below
`nm` untouched, and only grows the stores. -/
def HeapLe (no nm : Nat) (h h' : RHeap) : Prop :=
  (∀ i, i < no → h'.objs.getD i default = h.objs.getD i default) ∧
  (∀ i, i < nm → h'.maps.getD i [] = h.maps.getD i []) ∧
  h.objs.length ≤ h'.objs.length ∧ h.maps.length ≤ h'.maps.length

theorem heapLe_refl (no nm : Nat) (h : RHeap) : HeapLe no nm h h :=
  ⟨fun _ _ => rfl, fun _ _ => rfl, le_refl _, le_refl _⟩

theorem heapLe_trans (no nm : Nat) (h1 h2 h3 : RHeap)
    (a : HeapLe no nm h1 h2) (b : HeapLe no nm h2 h3) : HeapLe no nm h1 h3 :=
  ⟨fun i hi => (b.1 i hi).trans (a.1 i hi),
   fun i hi => (b.2.1 i hi).trans (a.2.1 i hi),
   a.2.2.1.trans b.2.2.1, a.2.2.2.trans b.2.2.2⟩

theorem heapLe_allocObj (no nm : Nat) (h : RHeap) (o : RObj)
    (hno : no ≤ h.objs.length) : HeapLe no nm h (h.allocObj o).1 := by
  refine ⟨?_, fun _ _ => rfl, ?_, le_refl _⟩
  · intro i hi
    exact List.getD_append _ _ _ _ (lt_of_lt_of_le hi hno)
  · show h.objs.length ≤ (h.objs ++ [o]).length
    rw [List.length_append]
    omega

theorem heapLe_allocMap (no nm : Nat) (h : RHeap) (m : SkipMap)
    (hnm : nm ≤ h.maps.length) : HeapLe no nm h (h.allocMap m).1 := by
  refine ⟨fun _ _ => rfl, ?_, le_refl _, ?_⟩
  · intro i hi
    exact List.getD_append _ _ _ _ (lt_of_lt_of_le hi hnm)
  · show h.maps.length ≤ (h.maps ++ [m]).length
    rw [List.length_append]
    omega

theorem heapLe_setObj (no nm : Nat) (h : RHeap) (j : Nat) (o : RObj)
    (hj : no ≤ j) : HeapLe no nm h (h.setObj j o) := by
  refine ⟨?_, fun _ _ => rfl, ?_, le_refl _⟩
  · intro i hi
    exact getD_set_ne _ _ _ _ _ (by omega)
  · show h.objs.length ≤ (h.objs.set j o).length
    rw [List.length_set]

theorem skipImp_frame (no nm : Nat) (h : RHeap) (r u : Nat)
    (hno : no ≤ h.objs.length) (hnm : nm ≤ h.maps.length) :
    HeapLe no nm h (skipMessageKeysImp h r u).2 ∧
    (∀ r2, (skipMessageKeysImp h r u).1 = .ok r2 →
      r2 = r ∨ h.objs.length ≤ r2) := by
  unfold skipMessageKeysImp
  dsimp only
  cases hc : (h.getObj r).CKr with
  | none =>
    cases hd : (h.getObj r).DHr <;> dsimp only <;>
      exact ⟨heapLe_refl no nm h, fun r2 hr2 => Or.inl (Except.ok.inj hr2).symm⟩
  | some ckr =>
    cases hd : (h.getObj r).DHr with
    | none =>
      dsimp only
      exact ⟨heapLe_refl no nm h, fun r2 hr2 => Or.inl (Except.ok.inj hr2).symm⟩
    | some dhr =>
      dsimp only
      by_cases hcap : (h.getObj r).Nr + MAX_SKIP < u
      · rw [if_pos hcap]
        exact ⟨heapLe_refl no nm h, fun r2 hr2 => Except.noConfusion hr2⟩
      · rw [if_neg hcap]
        constructor
        · exact heapLe_trans no nm _ _ _
            (heapLe_allocMap no nm h _ hnm)
            (heapLe_allocObj no nm _ _ hno)
        · intro r2 hr2
          right
          rw [← Except.ok.inj hr2]
          exact le_refl _

theorem dhStepImp_frame (no nm : Nat) (h : RHeap) (r0 dh pn f : Nat)
    (hno : no ≤ h.objs.length) (hnm : nm ≤ h.maps.length) (hr0 : no ≤ r0) :
    HeapLe no nm h (dhRatchetStepImp h r0 dh pn f).2 ∧
    (∀ r1, (dhRatchetStepImp h r0 dh pn f).1 = .ok r1 → no ≤ r1) := by
  unfold dhRatchetStepImp
  have hskip := skipImp_frame no nm h r0 pn hno hnm
  cases hif : (if (h.getObj r0).CKr ≠ none ∧ (h.getObj r0).DHr ≠ none
               then skipMessageKeysImp h r0 pn else (.ok r0, h)) with
  | mk fst h1 =>
    have hle1 : HeapLe no nm h h1 ∧ (∀ r1, fst = .ok r1 → no ≤ r1) := by
      by_cases hcond : (h.getObj r0).CKr ≠ none ∧ (h.getObj r0).DHr ≠ none
      · rw [if_pos hcond] at hif
        have hsnd : (skipMessageKeysImp h r0 pn).2 = h1 := by rw [hif]
        refine ⟨hsnd ▸ hskip.1, ?_⟩
        intro r1 h1r
        have hfst : (skipMessageKeysImp h r0 pn).1 = .ok r1 := by
          rw [hif]
          exact h1r
        rcases hskip.2 r1 hfst with h2 | h2
        · omega
        · omega
      · rw [if_neg hcond] at hif
        have hsnd : h = h1 := congrArg Prod.snd hif
        have hfst : Except.ok r0 = fst := congrArg Prod.fst hif
        refine ⟨hsnd ▸ heapLe_refl no nm h, ?_⟩
        intro r1 h1r
        rw [← hfst] at h1r
        have : r0 = r1 := Except.ok.inj h1r
        omega
    cases fst with
    | error e =>
      dsimp only
      exact ⟨hle1.1, fun r1 hr1 => Except.noConfusion hr1⟩
    | ok r1 =>
      dsimp only
      have hr1 : no ≤ r1 := hle1.2 r1 rfl
      constructor
      · exact heapLe_trans no nm _ _ _
          (heapLe_trans no nm _ _ _
            (heapLe_trans no nm _ _ _ hle1.1 (heapLe_setObj no nm _ r1 _ hr1))
            (heapLe_setObj no nm _ r1 _ hr1))
          (heapLe_setObj no nm _ r1 _ hr1)
      · intro r1' hr1'
        rw [← Except.ok.inj hr1']
        exact hr1

theorem decryptMainImp_frame (no nm : Nat) (h2 : RHeap) (r0 : Nat)
    (header : MessageHeader) (nonce : List Nat) (ct : AeadCiphertext)
    (f dh : Nat) (hno : no ≤ h2.objs.length) (hnm : nm ≤ h2.maps.length)
    (hr0 : no ≤ r0) :
    HeapLe no nm h2 (ratchetDecryptImpMain h2 r0 header nonce ct f dh).2 := by
  unfold ratchetDecryptImpMain
  cases hif : (if (h2.getObj r0).DHr = some dh then (.ok r0, h2)
               else dhRatchetStepImp h2 r0 dh header.pn f) with
  | mk fst h3 =>
    have hle1 : HeapLe no nm h2 h3 ∧ (∀ r1, fst = .ok r1 → no ≤ r1) := by
      by_cases hcond : (h2.getObj r0).DHr = some dh
      · rw [if_pos hcond] at hif
        have hsnd : h2 = h3 := congrArg Prod.snd hif
        have hfst : Except.ok r0 = fst := congrArg Prod.fst hif
        refine ⟨hsnd ▸ heapLe_refl no nm h2, ?_⟩
        intro r1 h1r
        rw [← hfst] at h1r
        have : r0 = r1 := Except.ok.inj h1r
        omega
      · rw [if_neg hcond] at hif
        have hd := dhStepImp_frame no nm h2 r0 dh header.pn f hno hnm hr0
        have hsnd : (dhRatchetStepImp h2 r0 dh header.pn f).2 = h3 := by rw [hif]
        refine ⟨hsnd ▸ hd.1, ?_⟩
        intro r1 h1r
        refine hd.2 r1 ?_
        rw [hif]
        exact h1r
    cases fst with
    | error e =>
      dsimp only
      exact hle1.1
    | ok r1 =>
      dsimp only
      have hr1 : no ≤ r1 := hle1.2 r1 rfl
      have hno3 : no ≤ h3.objs.length := le_trans hno hle1.1.2.2.1
      have hnm3 : nm ≤ h3.maps.length := le_trans hnm hle1.1.2.2.2
      have hskip := skipImp_frame no nm h3 r1 header.n hno3 hnm3
      cases hsk : skipMessageKeysImp h3 r1 header.n with
      | mk fst2 h4 =>
        have hle2 : HeapLe no nm h3 h4 := by
          have hsnd : (skipMessageKeysImp h3 r1 header.n).2 = h4 := by rw [hsk]
          exact hsnd ▸ hskip.1
        cases fst2 with
        | error e =>
          dsimp only
          exact heapLe_trans no nm _ _ _ hle1.1 hle2
        | ok r2 =>
          dsimp only
          have hr2 : no ≤ r2 := by
            rcases hskip.2 r2 (by rw [hsk]) with h5 | h5
            · omega
            · omega
          have hle12 : HeapLe no nm h2 h4 := heapLe_trans no nm _ _ _ hle1.1 hle2
          cases hck : (h4.getObj r2).CKr with
          | none =>
            dsimp only
            exact hle12
          | some ckr =>
            dsimp only
            cases hdec : aeadDecrypt (kdfCK ckr).2 nonce (headerJson header) ct with
            | some pt =>
              dsimp only
              exact heapLe_trans no nm _ _ _ hle12
                (heapLe_setObj no nm h4 r2 _ hr2)
            | none =>
              dsimp only
              exact heapLe_trans no nm _ _ _ hle12
                (heapLe_setObj no nm h4 r2 _ hr2)

theorem encImp_frame (no nm : Nat) (h : RHeap) (r : Nat) (pt : String)
    (nonce : List Nat) (hno : no ≤ h.objs.length) :
    HeapLe no nm h (ratchetEncryptImp h r pt nonce).2 := by
  unfold ratchetEncryptImp
  dsimp only
  cases hc : (h.getObj r).CKs with
  | none => exact heapLe_refl no nm h
  | some cks =>
    dsimp only
    exact heapLe_allocObj no nm h _ hno

theorem decImp_frame (no nm : Nat) (h : RHeap) (r : Nat)
    (header : MessageHeader) (nonce : List Nat) (ct : AeadCiphertext)
    (f : Nat) (hno : no ≤ h.objs.length) (hnm : nm ≤ h.maps.length) :
    HeapLe no nm h (ratchetDecryptImp h r header nonce ct f).2 := by
  unfold ratchetDecryptImp
  dsimp only
  cases hmg : mapGet (h.getMap (h.getObj r).mkskippedRef)
      (fromBase64 header.dh, header.n) with
  | some mk =>
    dsimp only
    cases hdec : aeadDecrypt mk nonce (headerJson header) ct with
    | some pt =>
      dsimp only
      exact heapLe_trans no nm _ _ _ (heapLe_allocMap no nm h _ hnm)
        (heapLe_allocObj no nm _ _ hno)
    | none =>
      dsimp only
      exact heapLe_allocMap no nm h _ hnm
  | none =>
    dsimp only
    have hle1 : HeapLe no nm h ((h.allocMap (h.getMap (h.getObj r).mkskippedRef)).1.allocObj
        { h.getObj r with mkskippedRef := (h.allocMap (h.getMap (h.getObj r).mkskippedRef)).2 }).1 :=
      heapLe_trans no nm _ _ _ (heapLe_allocMap no nm h _ hnm)
        (heapLe_allocObj no nm _ _ hno)
    refine heapLe_trans no nm _ _ _ hle1 ?_
    exact decryptMainImp_frame no nm _ _ header nonce ct f _
      (le_trans hno hle1.2.2.1) (le_trans hnm hle1.2.2.2) (le_trans hno (le_refl _))

/-- C9: neither ratchet operation mutates the state it is given: for any
valid state reference on the heap, after `ratchetEncrypt` or
`ratchetDecrypt` returns (successfully or with an error), the argument
object's fields and the full contents of its `MKSKIPPED` map are unchanged;
every update lands in freshly allocated objects and map copies. -/
theorem ratchet_no_state_mutation :
    (∀ (h : RHeap) (r : Nat) (pt : String) (nonce : List Nat),
      r < h.objs.length → (h.getObj r).mkskippedRef < h.maps.length →
      (ratchetEncryptImp h r pt nonce).2.getObj r = h.getObj r ∧
      (ratchetEncryptImp h r pt nonce).2.getMap (h.getObj r).mkskippedRef
        = h.getMap (h.getObj r).mkskippedRef) ∧
    (∀ (h : RHeap) (r : Nat) (header : MessageHeader) (nonce : List Nat)
        (ct : AeadCiphertext) (f : Nat),
      r < h.objs.length → (h.getObj r).mkskippedRef < h.maps.length →
      (ratchetDecryptImp h r header nonce ct f).2.getObj r = h.getObj r ∧
      (ratchetDecryptImp h r header nonce ct f).2.getMap
          (h.getObj r).mkskippedRef
        = h.getMap (h.getObj r).mkskippedRef) := by
  constructor
  · intro h r pt nonce hr hm
    have hle := encImp_frame h.objs.length h.maps.length h r pt nonce
      (le_refl _)
    exact ⟨hle.1 r hr, hle.2.1 _ hm⟩
  · intro h r header nonce ct f hr hm
    have hle := decImp_frame h.objs.length h.maps.length h r header nonce ct f
      (le_refl _) (le_refl _)
    exact ⟨hle.1 r hr, hle.2.1 _ hm⟩

/-- Witness for C9 on a one-object heap. -/
theorem ratchet_no_state_mutation_witness :
    (ratchetDecryptImp { objs := [default], maps := [[]] } 0
        { dh := "A", pn := 0, n := 0 } [] c5ct 3).2.getObj 0
      = RHeap.getObj { objs := [default], maps := [[]] } 0 :=
  (ratchet_no_state_mutation.2 { objs := [default], maps := [[]] } 0
    { dh := "A", pn := 0, n := 0 } [] c5ct 3 (by decide) (by decide)).1
